import Mathlib

/-!
Verification development for the uProtocol TCK test-manager step implementations
(`test_manager/features/steps/tck_step_implementations.py`).

The Python module is shallowly embedded below.  Python strings are modelled as
`List Char` (`Str`), byte strings as `List Nat` (`Bytes`, one `Nat` per byte),
JSON-ish dynamic values (the payloads flowing through `context.json_dict`,
`context.response_data` and the on-receive messages) as the inductive `JVal`,
and Python `dict`s as insertion-ordered association lists with Python's
assignment semantics (update in place keeps the position, a new key is
appended).  Fallible code returns `Except PyErr`; the `PyErr` constructor
records the Python exception class that the corresponding step surfaces.
-/

/-- Python strings, modelled as lists of characters. -/
abbrev Str := List Char

/-- Python byte strings, modelled as lists of byte values. -/
abbrev Bytes := List Nat

/-- Convenience conversion from Lean string literals to `Str`. -/
def str (s : String) : Str := s.data

/-- Python exception classes that the embedded functions can surface. -/
inductive PyErr where
  | assertionError
  | valueError
  | keyError
  | typeError
  | indexError
  | attributeError
  | exception
deriving DecidableEq, Repr

/-- Dynamic values: the JSON-ish data that flows through the step context.
`jfloatLit` keeps a float literal symbolically (no claim depends on float
arithmetic); `jbytes` models a Python `bytes` object. -/
inductive JVal where
  | jstr : Str → JVal
  | jint : Int → JVal
  | jbool : Bool → JVal
  | jnull : JVal
  | jfloatLit : Str → JVal
  | jbytes : Bytes → JVal
  | jobj : List (Str × JVal) → JVal

mutual

/-- Boolean equality on `JVal` (nested inductive, so written by hand). -/
def JVal.beq : JVal → JVal → Bool
  | .jstr x, .jstr y => decide (x = y)
  | .jint x, .jint y => decide (x = y)
  | .jbool x, .jbool y => decide (x = y)
  | .jnull, .jnull => true
  | .jfloatLit x, .jfloatLit y => decide (x = y)
  | .jbytes x, .jbytes y => decide (x = y)
  | .jobj x, .jobj y => JVal.beqList x y
  | _, _ => false

/-- Boolean equality on `JVal` entry lists. -/
def JVal.beqList : List (Str × JVal) → List (Str × JVal) → Bool
  | [], [] => true
  | (k1, v1) :: r1, (k2, v2) :: r2 =>
    decide (k1 = k2) && JVal.beq v1 v2 && JVal.beqList r1 r2
  | _, _ => false

end

mutual

theorem JVal.eq_of_beq : ∀ {a b : JVal}, JVal.beq a b = true → a = b
  | .jstr _, .jstr _, h => by
    simp only [JVal.beq, decide_eq_true_eq] at h; rw [h]
  | .jint _, .jint _, h => by
    simp only [JVal.beq, decide_eq_true_eq] at h; rw [h]
  | .jbool _, .jbool _, h => by
    simp only [JVal.beq, decide_eq_true_eq] at h; rw [h]
  | .jnull, .jnull, _ => rfl
  | .jfloatLit _, .jfloatLit _, h => by
    simp only [JVal.beq, decide_eq_true_eq] at h; rw [h]
  | .jbytes _, .jbytes _, h => by
    simp only [JVal.beq, decide_eq_true_eq] at h; rw [h]
  | .jobj x, .jobj y, h => by
    rw [JVal.eqList_of_beqList (a := x) (b := y) h]
  | .jstr _, .jint _, h => by simp [JVal.beq] at h
  | .jstr _, .jbool _, h => by simp [JVal.beq] at h
  | .jstr _, .jnull, h => by simp [JVal.beq] at h
  | .jstr _, .jfloatLit _, h => by simp [JVal.beq] at h
  | .jstr _, .jbytes _, h => by simp [JVal.beq] at h
  | .jstr _, .jobj _, h => by simp [JVal.beq] at h
  | .jint _, .jstr _, h => by simp [JVal.beq] at h
  | .jint _, .jbool _, h => by simp [JVal.beq] at h
  | .jint _, .jnull, h => by simp [JVal.beq] at h
  | .jint _, .jfloatLit _, h => by simp [JVal.beq] at h
  | .jint _, .jbytes _, h => by simp [JVal.beq] at h
  | .jint _, .jobj _, h => by simp [JVal.beq] at h
  | .jbool _, .jstr _, h => by simp [JVal.beq] at h
  | .jbool _, .jint _, h => by simp [JVal.beq] at h
  | .jbool _, .jnull, h => by simp [JVal.beq] at h
  | .jbool _, .jfloatLit _, h => by simp [JVal.beq] at h
  | .jbool _, .jbytes _, h => by simp [JVal.beq] at h
  | .jbool _, .jobj _, h => by simp [JVal.beq] at h
  | .jnull, .jstr _, h => by simp [JVal.beq] at h
  | .jnull, .jint _, h => by simp [JVal.beq] at h
  | .jnull, .jbool _, h => by simp [JVal.beq] at h
  | .jnull, .jfloatLit _, h => by simp [JVal.beq] at h
  | .jnull, .jbytes _, h => by simp [JVal.beq] at h
  | .jnull, .jobj _, h => by simp [JVal.beq] at h
  | .jfloatLit _, .jstr _, h => by simp [JVal.beq] at h
  | .jfloatLit _, .jint _, h => by simp [JVal.beq] at h
  | .jfloatLit _, .jbool _, h => by simp [JVal.beq] at h
  | .jfloatLit _, .jnull, h => by simp [JVal.beq] at h
  | .jfloatLit _, .jbytes _, h => by simp [JVal.beq] at h
  | .jfloatLit _, .jobj _, h => by simp [JVal.beq] at h
  | .jbytes _, .jstr _, h => by simp [JVal.beq] at h
  | .jbytes _, .jint _, h => by simp [JVal.beq] at h
  | .jbytes _, .jbool _, h => by simp [JVal.beq] at h
  | .jbytes _, .jnull, h => by simp [JVal.beq] at h
  | .jbytes _, .jfloatLit _, h => by simp [JVal.beq] at h
  | .jbytes _, .jobj _, h => by simp [JVal.beq] at h
  | .jobj _, .jstr _, h => by simp [JVal.beq] at h
  | .jobj _, .jint _, h => by simp [JVal.beq] at h
  | .jobj _, .jbool _, h => by simp [JVal.beq] at h
  | .jobj _, .jnull, h => by simp [JVal.beq] at h
  | .jobj _, .jfloatLit _, h => by simp [JVal.beq] at h
  | .jobj _, .jbytes _, h => by simp [JVal.beq] at h

theorem JVal.eqList_of_beqList :
    ∀ {a b : List (Str × JVal)}, JVal.beqList a b = true → a = b
  | [], [], _ => rfl
  | (k1, v1) :: r1, (k2, v2) :: r2, h => by
    simp only [JVal.beqList, Bool.and_eq_true, decide_eq_true_eq] at h
    rw [h.1.1, JVal.eq_of_beq (a := v1) (b := v2) h.1.2,
      JVal.eqList_of_beqList (a := r1) (b := r2) h.2]
  | [], _ :: _, h => by simp [JVal.beqList] at h
  | _ :: _, [], h => by simp [JVal.beqList] at h

end

mutual

theorem JVal.beq_refl : ∀ a : JVal, JVal.beq a a = true
  | .jstr _ => by simp [JVal.beq]
  | .jint _ => by simp [JVal.beq]
  | .jbool _ => by simp [JVal.beq]
  | .jnull => rfl
  | .jfloatLit _ => by simp [JVal.beq]
  | .jbytes _ => by simp [JVal.beq]
  | .jobj x => JVal.beqList_refl x

theorem JVal.beqList_refl : ∀ a : List (Str × JVal), JVal.beqList a a = true
  | [] => rfl
  | (k, v) :: r => by
    simp only [JVal.beqList, Bool.and_eq_true, decide_eq_true_eq]
    exact ⟨⟨trivial, JVal.beq_refl v⟩, JVal.beqList_refl r⟩

end

instance : DecidableEq JVal := fun a b =>
  decidable_of_iff (JVal.beq a b = true)
    ⟨fun h => JVal.eq_of_beq h, fun h => h ▸ JVal.beq_refl a⟩

/-- Decidable equality for `Except` results. -/
def Except.decEq {ε α : Type} [DecidableEq ε] [DecidableEq α] :
    (a b : Except ε α) → Decidable (a = b)
  | .ok x, .ok y =>
    if h : x = y then .isTrue (by rw [h])
    else .isFalse (fun hh => by cases hh; exact h rfl)
  | .error x, .error y =>
    if h : x = y then .isTrue (by rw [h])
    else .isFalse (fun hh => by cases hh; exact h rfl)
  | .ok _, .error _ => .isFalse (fun hh => by cases hh)
  | .error _, .ok _ => .isFalse (fun hh => by cases hh)

instance {ε α : Type} [DecidableEq ε] [DecidableEq α] : DecidableEq (Except ε α) :=
  Except.decEq

/-- A Python dict with string keys, as an insertion-ordered association list. -/
abbrev DictE := List (Str × JVal)

/-! ### Association-list operations with Python `dict` semantics -/

/-- Lookup of `d[k]` returning `none` when the key is absent. -/
def assocLookup (d : DictE) (k : Str) : Option JVal :=
  match d with
  | [] => none
  | (k', v) :: rest => if k' = k then some v else assocLookup rest k

/-- Python `d[k] = v`: update in place if the key exists, else append. -/
def setKey (d : DictE) (k : Str) (v : JVal) : DictE :=
  match d with
  | [] => [(k, v)]
  | (k', v') :: rest => if k' = k then (k', v) :: rest else (k', v') :: setKey rest k v

/-! ### Generic sequence helpers shared by the string and byte operations -/

/-- Fuelled worker for Python's `split` with a non-empty separator
`s0 :: sr` (fuel makes the recursion structural, so the kernel can
evaluate it; `splitOnSubAux` supplies enough fuel). -/
def splitFuelAux {α : Type} [DecidableEq α] (s0 : α) (sr : List α) : Nat → List α → List (List α)
  | _, [] => [[]]
  | 0, a :: rest => [a :: rest]
  | fuel + 1, a :: rest =>
    if (s0 :: sr).isPrefixOf (a :: rest) then
      [] :: splitFuelAux s0 sr fuel (rest.drop sr.length)
    else
      match splitFuelAux s0 sr fuel rest with
      | g :: gs => (a :: g) :: gs
      | [] => [[a]]

/-- Python's `split` with a non-empty separator `s0 :: sr`: splits on every
non-overlapping occurrence, left to right, keeping empty chunks. -/
def splitOnSubAux {α : Type} [DecidableEq α] (s0 : α) (sr : List α) (l : List α) : List (List α) :=
  splitFuelAux s0 sr l.length l

theorem splitFuelAux_irrel_bound {α : Type} [DecidableEq α] (s0 : α) (sr : List α) :
    ∀ n fuel l, fuel ≤ n → List.length l ≤ fuel →
      splitFuelAux s0 sr fuel l = splitOnSubAux s0 sr l := by
  intro n
  induction n with
  | zero =>
    intro fuel l hf hl
    have : fuel = 0 := Nat.le_zero.mp hf
    subst this
    have : l = [] := List.eq_nil_of_length_eq_zero (Nat.le_zero.mp hl)
    subst this
    rfl
  | succ n ihn =>
    intro fuel l hf hl
    cases l with
    | nil =>
      cases fuel <;> rfl
    | cons a rest =>
      cases fuel with
      | zero => simp at hl
      | succ f =>
        simp only [List.length_cons] at hl
        show splitFuelAux s0 sr (f + 1) (a :: rest)
            = splitFuelAux s0 sr (rest.length + 1) (a :: rest)
        simp only [splitFuelAux]
        have hd : (rest.drop sr.length).length ≤ rest.length := by
          simp only [List.length_drop]; omega
        rw [ihn f _ (by omega) (by omega), ihn rest.length _ (by omega) hd,
          ihn f rest (by omega) (by omega), ihn rest.length rest (by omega) (Nat.le_refl _)]

theorem splitFuelAux_irrel {α : Type} [DecidableEq α] (s0 : α) (sr : List α) :
    ∀ fuel l, List.length l ≤ fuel → splitFuelAux s0 sr fuel l = splitOnSubAux s0 sr l :=
  fun fuel l h => splitFuelAux_irrel_bound s0 sr fuel fuel l (Nat.le_refl _) h

/-- Unfolding equation for `splitOnSubAux` on a cons cell. -/
theorem splitOnSubAux_cons {α : Type} [DecidableEq α] (s0 : α) (sr : List α) (a : α) (rest : List α) :
    splitOnSubAux s0 sr (a :: rest)
      = if (s0 :: sr).isPrefixOf (a :: rest) then
          [] :: splitOnSubAux s0 sr (rest.drop sr.length)
        else
          match splitOnSubAux s0 sr rest with
          | g :: gs => (a :: g) :: gs
          | [] => [[a]] := by
  show splitFuelAux s0 sr (rest.length + 1) (a :: rest) = _
  simp only [splitFuelAux]
  rw [splitFuelAux_irrel s0 sr rest.length (rest.drop sr.length)
      (by simp only [List.length_drop]; omega),
    splitFuelAux_irrel s0 sr rest.length rest (Nat.le_refl _)]

/-- Unfolding equation for `splitOnSubAux` on the empty list. -/
theorem splitOnSubAux_nil {α : Type} [DecidableEq α] (s0 : α) (sr : List α) :
    splitOnSubAux s0 sr [] = [[]] := rfl

/-- Python `value.split(sep)` for a list-like value (we only use non-empty
separators; `sep = []` is returned unsplit for totality). -/
def pySplit {α : Type} [DecidableEq α] (sep : List α) (l : List α) : List (List α) :=
  match sep with
  | [] => [l]
  | s0 :: sr => splitOnSubAux s0 sr l

/-- Python `sep in l` (contiguous subsequence containment). -/
def containsSub {α : Type} [DecidableEq α] (sep : List α) : List α → Bool
  | [] => sep.isEmpty
  | a :: rest => sep.isPrefixOf (a :: rest) || containsSub sep rest

/-- The suffix of `l` strictly after the first occurrence of `sep`
(`none` when `sep` does not occur).  This is the reference notion of
"the suffix following the marker" used to state the normalizer claims. -/
def specSuffixAfter {α : Type} [DecidableEq α] (sep : List α) : List α → Option (List α)
  | [] => none
  | a :: rest =>
    if sep.isPrefixOf (a :: rest) then some ((a :: rest).drop sep.length)
    else specSuffixAfter sep rest

/-- Python `s.replace(old, new)` for non-empty `old` (all non-overlapping
occurrences, left to right); `old = []` returns `s` unchanged (unused). -/
def pyReplace {α : Type} [DecidableEq α] (s old new : List α) : List α :=
  match old with
  | [] => s
  | o0 :: or' => List.intercalate new (splitOnSubAux o0 or' s)

/-- Characters removed by Python's `str.strip()` (ASCII whitespace; the
unicode whitespace extras are not exercised by this harness). -/
def isPySpace (c : Char) : Bool :=
  c = ' ' || c = '\t' || c = '\n' || c = '\x0d' || c = '\x0b' || c = '\x0c'

/-- Python `s.strip()`. -/
def pyStrip (s : Str) : Str :=
  ((s.dropWhile isPySpace).reverse.dropWhile isPySpace).reverse

/-- Python `s[1:]`. -/
def pyDrop1 {α : Type} (s : List α) : List α := s.drop 1

/-! ### UTF-8 encoding and decoding -/

/-- UTF-8 encoding of one code point (`str.encode("utf-8")`, per character). -/
def utf8EncodeChar (c : Char) : Bytes :=
  let n := c.toNat
  if n < 0x80 then [n]
  else if n < 0x800 then
    [0xC0 + n / 64, 0x80 + n % 64]
  else if n < 0x10000 then
    [0xE0 + n / 4096, 0x80 + n / 64 % 64, 0x80 + n % 64]
  else
    [0xF0 + n / 262144, 0x80 + n / 4096 % 64, 0x80 + n / 64 % 64, 0x80 + n % 64]

/-- Python `s.encode("utf-8")`. -/
def utf8Encode (s : Str) : Bytes := s.flatMap utf8EncodeChar

/-- Python `b.decode("utf-8")`: strict UTF-8 decoding, rejecting truncated
sequences, bad continuation bytes, overlong forms, surrogates and
out-of-range code points. -/
def utf8Decode : Bytes → Option Str
  | [] => some []
  | b :: rest =>
    if b < 0x80 then
      (utf8Decode rest).map (fun s => Char.ofNat b :: s)
    else if b < 0xC2 then none
    else if b < 0xE0 then
      match rest with
      | c1 :: rest' =>
        if 0x80 ≤ c1 ∧ c1 < 0xC0 then
          (utf8Decode rest').map (fun s => Char.ofNat ((b - 0xC0) * 64 + (c1 - 0x80)) :: s)
        else none
      | [] => none
    else if b < 0xF0 then
      match rest with
      | c1 :: c2 :: rest' =>
        if 0x80 ≤ c1 ∧ c1 < 0xC0 ∧ 0x80 ≤ c2 ∧ c2 < 0xC0 then
          let n := (b - 0xE0) * 4096 + (c1 - 0x80) * 64 + (c2 - 0x80)
          if 0x800 ≤ n ∧ ¬(0xD800 ≤ n ∧ n < 0xE000) then
            (utf8Decode rest').map (fun s => Char.ofNat n :: s)
          else none
        else none
      | _ => none
    else if b < 0xF5 then
      match rest with
      | c1 :: c2 :: c3 :: rest' =>
        if 0x80 ≤ c1 ∧ c1 < 0xC0 ∧ 0x80 ≤ c2 ∧ c2 < 0xC0 ∧ 0x80 ≤ c3 ∧ c3 < 0xC0 then
          let n := (b - 0xF0) * 262144 + (c1 - 0x80) * 4096 + (c2 - 0x80) * 64 + (c3 - 0x80)
          if 0x10000 ≤ n ∧ n < 0x110000 then
            (utf8Decode rest').map (fun s => Char.ofNat n :: s)
          else none
        else none
      | _ => none
    else none

/-- Lowercase hex digit for `n < 16`. -/
def hexDigit (n : Nat) : Nat :=
  if n < 10 then 48 + n else 87 + n

/-- Python `codecs.encode(s, "unicode_escape")`, per character: backslash and
the control characters tab/newline/carriage-return get letter escapes,
printable ASCII passes through, everything else becomes a numeric escape. -/
def unicodeEscapeChar (c : Char) : Bytes :=
  let n := c.toNat
  if n = 92 then [92, 92]
  else if n = 9 then [92, 116]
  else if n = 10 then [92, 110]
  else if n = 13 then [92, 114]
  else if 0x20 ≤ n ∧ n < 0x7F then [n]
  else if n < 0x100 then [92, 120, hexDigit (n / 16), hexDigit (n % 16)]
  else if n < 0x10000 then
    [92, 117, hexDigit (n / 4096), hexDigit (n / 256 % 16), hexDigit (n / 16 % 16), hexDigit (n % 16)]
  else
    [92, 85, hexDigit (n / 0x10000000), hexDigit (n / 0x1000000 % 16), hexDigit (n / 0x100000 % 16),
     hexDigit (n / 0x10000 % 16), hexDigit (n / 4096 % 16), hexDigit (n / 256 % 16),
     hexDigit (n / 16 % 16), hexDigit (n % 16)]

/-- Python `codecs.encode(s, "unicode_escape")`. -/
def unicodeEscape (s : Str) : Bytes := s.flatMap unicodeEscapeChar

/-! ### base64 decoding (`base64.b64decode` on a `str` argument) -/

/-- Why `base64.b64decode` can fail on a `str` input: `binascii.Error`
(bad padding) or the `UnicodeEncodeError` raised by the implicit
`.encode("ascii")` on non-ASCII input (which is not a `binascii.Error`). -/
inductive B64Fail where
  | binasciiError
  | nonAscii
deriving DecidableEq

/-- Value of a standard base64 alphabet character. -/
def b64CharVal (c : Char) : Option Nat :=
  let n := c.toNat
  if 65 ≤ n ∧ n ≤ 90 then some (n - 65)
  else if 97 ≤ n ∧ n ≤ 122 then some (n - 97 + 26)
  else if 48 ≤ n ∧ n ≤ 57 then some (n - 48 + 52)
  else if n = 43 then some 62
  else if n = 47 then some 63
  else none

/-- Core of CPython's `binascii.a2b_base64` in non-strict mode: invalid
characters are skipped, bytes are emitted as soon as enough bits are
available, `=` counts as padding only once two data characters of the
current quad have been seen, and a leftover partial quad at the end of
input is a `binascii.Error`.  Arguments: input, `quad_pos`, `leftchar`,
`pads`, accumulated output (reversed). -/
def a2bGo : List Char → Nat → Nat → Nat → Bytes → Option Bytes
  | [], q, _, _, acc => if q = 0 then some acc.reverse else none
  | c :: rest, q, left, pads, acc =>
    if c = '=' then
      if q ≥ 2 then
        if q + (pads + 1) ≥ 4 then some acc.reverse
        else a2bGo rest q left (pads + 1) acc
      else a2bGo rest q left pads acc
    else
      match b64CharVal c with
      | none => a2bGo rest q left pads acc
      | some v =>
        match q with
        | 0 => a2bGo rest 1 v 0 acc
        | 1 => a2bGo rest 2 (v % 16) 0 ((left * 4 + v / 16) :: acc)
        | 2 => a2bGo rest 3 (v % 4) 0 ((left * 16 + v / 4) :: acc)
        | _ => a2bGo rest 0 0 0 ((left * 64 + v) :: acc)

/-- Python `base64.b64decode(s)` for `s : str` (default `validate=False`). -/
def pyB64Decode (s : Str) : Except B64Fail Bytes :=
  if s.any (fun c => c.toNat ≥ 128) then .error .nonAscii
  else
    match a2bGo s 0 0 0 [] with
    | some bs => .ok bs
    | none => .error .binasciiError

/-! ### Python `int(str)` parsing -/

/-- Digit-sequence parser for `int()`: underscores are allowed only between
digits. -/
def pyDigitsGo (acc : Nat) : List Char → Option Nat
  | [] => some acc
  | '_' :: c :: rest =>
    if c.isDigit then pyDigitsGo (acc * 10 + (c.toNat - 48)) rest else none
  | '_' :: [] => none
  | c :: rest =>
    if c.isDigit then pyDigitsGo (acc * 10 + (c.toNat - 48)) rest else none

/-- Parses a non-empty digit sequence (with `_` separators). -/
def pyDigits : List Char → Option Nat
  | [] => none
  | c :: rest => if c.isDigit then pyDigitsGo (c.toNat - 48) rest else none

/-- Python `int(s)`: surrounding whitespace, optional sign, ASCII digits
(with `_` separators); `none` models the `ValueError` on parse failure. -/
def pyIntParse (s : Str) : Option Int :=
  match pyStrip s with
  | '+' :: rest => (pyDigits rest).map Int.ofNat
  | '-' :: rest => (pyDigits rest).map (fun n => -(n : Int))
  | rest => (pyDigits rest).map Int.ofNat

/-! Sanity checks on the helpers (concrete evaluations). -/

example : str "a.b" = ['a', '.', 'b'] := by decide

example : pySplit (str ".") (str "a.b") = [str "a", str "b"] := by decide

example : pySplit (str "aa") (str "aaa") = [[], str "a"] := by decide

example : pyReplace (str "axbxc") (str "x") (str "yy") = str "ayybyyc" := by decide

example : pyStrip (str "  hi ") = str "hi" := by decide

example : pyB64Decode (str "AAECAw==") = .ok [0, 1, 2, 3] := by decide

example : pyB64Decode (str "QQ") = .error .binasciiError := by decide

example : pyB64Decode (str "QQ==") = .ok [65] := by decide

example : pyIntParse (str " 42 ") = some 42 := by decide

example : pyIntParse (str "abc") = none := by decide

example : pyIntParse (str "-1_0") = some (-10) := by decide

example : pyIntParse (str "_1") = none := by decide

example : utf8Encode (str "type") = [116, 121, 112, 101] := by decide

example : utf8Decode [116, 121] = some (str "ty") := by decide

/-! ### A model of `json.loads` on the JSON subset this harness exchanges
(objects, strings with simple escapes, integers, `true`/`false`/`null`).
Floats, arrays and `\uXXXX` escapes are outside the modelled subset and
are reported as decode errors. -/

/-- JSON whitespace. -/
def isJsonWs (c : Char) : Bool :=
  c = ' ' || c = '\t' || c = '\n' || c = '\x0d'

/-- Parses the body of a JSON string after the opening quote; returns the
content and the input following the closing quote. -/
def jsonStringGo : Nat → Str → Option (Str × Str)
  | _, [] => none
  | 0, _ :: _ => none
  | fuel + 1, c :: rest =>
    if c = '"' then some ([], rest)
    else if c = '\x5C' then
      match rest with
      | [] => none
      | e :: rest' =>
        let dec : Option Char :=
          if e = '"' then some '"'
          else if e = '\x5C' then some '\x5C'
          else if e = '/' then some '/'
          else if e = 'n' then some '\n'
          else if e = 't' then some '\t'
          else if e = 'r' then some '\x0d'
          else if e = 'b' then some '\x08'
          else if e = 'f' then some '\x0c'
          else none
        match dec with
        | some d => (jsonStringGo fuel rest').map (fun p => (d :: p.1, p.2))
        | none => none
    else (jsonStringGo fuel rest).map (fun p => (c :: p.1, p.2))

/-- Digit characters to a natural number. -/
def digitsToNat (ds : Str) : Nat :=
  ds.foldl (fun acc c => acc * 10 + (c.toNat - 48)) 0

/-- Parses a JSON integer from `l` (already known to start with `-` or a
digit); enforces JSON's no-leading-zero rule and rejects fraction or
exponent parts (floats are outside the modelled subset). -/
def jsonIntFrom (l : Str) : Option (JVal × Str) :=
  let (neg, body) : Bool × Str :=
    match l with
    | '-' :: t => (true, t)
    | t => (false, t)
  let p := body.span Char.isDigit
  match p.1 with
  | [] => none
  | d :: ds =>
    if d = '0' ∧ ds ≠ [] then none
    else
      match p.2 with
      | '.' :: _ => none
      | 'e' :: _ => none
      | 'E' :: _ => none
      | rest =>
        let n : Int := Int.ofNat (digitsToNat (d :: ds))
        some (.jint (if neg then -n else n), rest)

mutual

/-- Parses one JSON value, returning it with the unconsumed input. -/
def jsonParseVal : Nat → Str → Option (JVal × Str)
  | 0, _ => none
  | fuel + 1, l =>
    match l.dropWhile isJsonWs with
    | [] => none
    | c :: rest =>
      if c = '"' then
        (jsonStringGo (rest.length + 1) rest).map (fun p => (JVal.jstr p.1, p.2))
      else if c = '\x7b' then
        match rest.dropWhile isJsonWs with
        | '\x7d' :: r2 => some (.jobj [], r2)
        | r1 => (jsonParseMembers fuel r1).map
            (fun p => (.jobj (p.1.foldl (fun d kv => setKey d kv.1 kv.2) []), p.2))
      else if c = 't' then
        if (str "rue").isPrefixOf rest then some (.jbool true, rest.drop 3) else none
      else if c = 'f' then
        if (str "alse").isPrefixOf rest then some (.jbool false, rest.drop 4) else none
      else if c = 'n' then
        if (str "ull").isPrefixOf rest then some (.jnull, rest.drop 3) else none
      else if c = '-' ∨ c.isDigit then jsonIntFrom (c :: rest)
      else none

/-- Parses the members of a JSON object, positioned at the first key. -/
def jsonParseMembers : Nat → Str → Option (List (Str × JVal) × Str)
  | 0, _ => none
  | fuel + 1, l =>
    match l with
    | '"' :: rest =>
      match jsonStringGo (rest.length + 1) rest with
      | none => none
      | some (key, r1) =>
        match r1.dropWhile isJsonWs with
        | ':' :: r3 =>
          match jsonParseVal fuel r3 with
          | none => none
          | some (v, r4) =>
            match r4.dropWhile isJsonWs with
            | ',' :: r6 =>
              (jsonParseMembers fuel (r6.dropWhile isJsonWs)).map
                (fun p => ((key, v) :: p.1, p.2))
            | '\x7d' :: r6 => some ([(key, v)], r6)
            | _ => none
        | _ => none
    | _ => none

end

/-- Python `json.loads(s)` on the modelled subset; a failed decode is the
`json.JSONDecodeError` (a `ValueError`). -/
def json_loads (s : Str) : Except PyErr JVal :=
  match jsonParseVal (s.length + 1) s with
  | some (v, rest) => if rest.dropWhile isJsonWs = [] then .ok v else .error .valueError
  | none => .error .valueError

example : json_loads (str "\x7b\"b\": \"c\"\x7d") = .ok (.jobj [(str "b", .jstr (str "c"))]) := by decide

example : json_loads (str " 12 ") = .ok (.jint 12) := by decide

example : json_loads (str "\x7b\"a\": \x7b\x7d, \"b\": -3\x7d")
    = .ok (.jobj [(str "a", .jobj []), (str "b", .jint (-3))]) := by decide

example : json_loads (str "nope") = .error .valueError := by decide

/-! ### The embedded step-implementation module -/

/-- Python `s.endswith(suffix)`. -/
def pyEndsWith (s suffix : Str) : Bool := suffix.isSuffixOf s

/-- Module constant `PYTHON_TA_PATH`. -/
def PYTHON_TA_PATH : Str := str "/test_agent/python/testagent.py"

/-- Module constant `JAVA_TA_PATH`. -/
def JAVA_TA_PATH : Str := str "/test_agent/java/target/tck-test-agent-java-jar-with-dependencies.jar"

/-- Module constant `RUST_TA_PATH`. -/
def RUST_TA_PATH : Str := str "/test_agent/rust/target/debug/rust_tck"

/-- Module constant `CPP_TA_PATH`. -/
def CPP_TA_PATH : Str := str "/test_agent/cpp/build/bin/test_agent_cpp"

/-- Host-environment inputs of `create_command` / `create_subprocess`:
`sys.platform`, `os.path.dirname(os.getcwd())`, and the `os.access(_, X_OK)`
oracle.  `os.path.abspath` normalisation is not modelled (no claim depends
on it): the absolute path is the plain concatenation below. -/
structure LaunchEnv where
  platform : Str
  cwd_parent : Str
  access_x_ok : Str → Bool

/-- Embedding of `create_command` (lines 41-66): builds the agent invocation.
The `raise Exception("only accept .jar, .py, and executable files")` is
`PyErr.exception`.  Note the escape hatch: a non-executable path is accepted
without error whenever it ends in `"rust_tck"`. -/
def create_command (env : LaunchEnv) (filepath_from_root_repo transport_to_send sdk_name : Str) :
    Except PyErr (List Str) :=
  let full_path := env.cwd_parent ++ str "/" ++ filepath_from_root_repo
  let head : Except PyErr (List Str) :=
    if pyEndsWith filepath_from_root_repo (str ".jar") then
      .ok [str "java", str "-jar"]
    else if pyEndsWith filepath_from_root_repo (str ".py") then
      if env.platform = str "win32" then .ok [str "python"]
      else if env.platform = str "linux" ∨ env.platform = str "linux2"
          ∨ env.platform = str "darwin" then .ok [str "python3"]
      else .ok []
    else if env.access_x_ok full_path then .ok []
    else if ¬ pyEndsWith filepath_from_root_repo (str "rust_tck") then
      .error .exception
    else .ok []
  match head with
  | .error e => .error e
  | .ok cmd =>
    .ok (cmd ++ [full_path, str "--transport", transport_to_send, str "--sdkname", sdk_name])

/-- Embedding of `create_subprocess` (lines 69-77): the returned command
stands in for the spawned `subprocess.Popen` handle. -/
def create_subprocess (platform : Str) (command : List Str) : Except PyErr (List Str) :=
  if platform = str "win32" then .ok command
  else if platform = str "linux" ∨ platform = str "linux2" ∨ platform = str "darwin" then
    .ok command
  else .error .exception

/-- The `sdk_paths` table inside `create_sdk_data` (line 149). -/
def sdk_paths (base_sdk_name : Str) : Option Str :=
  if base_sdk_name = str "python" then some PYTHON_TA_PATH
  else if base_sdk_name = str "java" then some JAVA_TA_PATH
  else if base_sdk_name = str "rust" then some RUST_TA_PATH
  else if base_sdk_name = str "cpp" then some CPP_TA_PATH
  else none

/-- The launch fragment of `create_sdk_data` (lines 147-157): resolve the
agent path (`raise ValueError("Invalid SDK name")` when unknown), build the
command, then spawn.  A `.ok` result means a process was spawned. -/
def launch_agent (env : LaunchEnv) (base_sdk_name transport sdk_name : Str) :
    Except PyErr (List Str) :=
  match sdk_paths base_sdk_name with
  | none => .error .valueError
  | some p =>
    match create_command env p transport sdk_name with
    | .error e => .error e
    | .ok cmd => create_subprocess env.platform cmd

/-- The `context.rust_sender` update in `create_sdk_data` (lines 181-187):
initialise to `False` when unset, then set when a rust agent is told to
send. -/
def update_rust_sender (rust_sender0 : Option Bool) (sdk_name command : Str) : Bool :=
  let r := rust_sender0.getD false
  if containsSub (str "rust") sdk_name ∧ command = str "send" then true else r

/-- The `UCode` enum of `uprotocol.v1.ucode_pb2` (`getattr(UCode, member)`). -/
def ucode_value (member : Str) : Option Int :=
  if member = str "OK" then some 0
  else if member = str "CANCELLED" then some 1
  else if member = str "UNKNOWN" then some 2
  else if member = str "INVALID_ARGUMENT" then some 3
  else if member = str "DEADLINE_EXCEEDED" then some 4
  else if member = str "NOT_FOUND" then some 5
  else if member = str "ALREADY_EXISTS" then some 6
  else if member = str "PERMISSION_DENIED" then some 7
  else if member = str "RESOURCE_EXHAUSTED" then some 8
  else if member = str "FAILED_PRECONDITION" then some 9
  else if member = str "ABORTED" then some 10
  else if member = str "OUT_OF_RANGE" then some 11
  else if member = str "UNIMPLEMENTED" then some 12
  else if member = str "INTERNAL" then some 13
  else if member = str "UNAVAILABLE" then some 14
  else if member = str "DATA_LOSS" then some 15
  else if member = str "UNAUTHENTICATED" then some 16
  else none

/-- Embedding of `cast` (lines 88-120); the unprimed name is taken by Lean
core.  The interesting branches for the claims are the `UCode`
pre-resolution and the `int` branch; the `float` branch keeps the literal
symbolically (its numeric value is unused by any claim). -/
def cast' (value : Str) (data_type : Str) (jsonable : Bool) : Except PyErr JVal :=
  let step1 : Except PyErr JVal :=
    if containsSub (str "UCode") value then
      match (pySplit (str ".") value)[1]? with
      | none => .error .indexError
      | some member =>
        match ucode_value member with
        | some n => .ok (.jint n)
        | none => .error .attributeError
    else .ok (.jstr value)
  match step1 with
  | .error e => .error e
  | .ok v =>
    if data_type = str "int" then
      match v with
      | .jint n => .ok (.jint n)
      | .jstr s =>
        match pyIntParse s with
        | some n => .ok (.jint n)
        | none => .ok .jnull
      | _ => .error .typeError
    else if data_type = str "str" then .ok v
    else if data_type = str "bool" then
      match v with
      | .jstr s => .ok (.jbool (decide (s ≠ [])))
      | .jint n => .ok (.jbool (decide (n ≠ 0)))
      | _ => .error .typeError
    else if data_type = str "float" then
      match v with
      | .jstr s => .ok (.jfloatLit s)
      | .jint _ => .ok (.jfloatLit [])
      | _ => .error .typeError
    else if data_type = str "bytes" then
      if jsonable then
        match v with
        | .jstr s => .ok (.jstr (str "BYTES:" ++ s))
        | _ => .error .typeError
      else
        match v with
        | .jstr s => .ok (.jbytes (utf8Encode s))
        | _ => .error .attributeError
    else .error .valueError

example : cast' (str "42") (str "int") true = .ok (.jint 42) := by decide

example : cast' (str "abc") (str "int") true = .ok .jnull := by decide

example : cast' (str "UCode.OK") (str "int") true = .ok (.jint 0) := by decide

example : cast' (str "hello") (str "bytes") true = .ok (.jstr (str "BYTES:hello")) := by decide

/-- Python subscription `v[key]` with a string key: mappings look the key
up (`KeyError` when absent); strings, numbers and every other value raise
`TypeError`. -/
def pyGetItem (v : JVal) (key : Str) : Except PyErr JVal :=
  match v with
  | .jobj d =>
    match assocLookup d key with
    | some x => .ok x
    | none => .error .keyError
  | _ => .error .typeError

/-- Embedding of `access_nested_dict` (lines 528-538): empty path returns
the root; otherwise the path is split on `"."`, the root (and only the
root) is JSON-decoded if it is a string, and each segment subscripts the
current value. -/
def access_nested_dict (dictionary : JVal) (keys : Str) : Except PyErr JVal :=
  if keys = [] then .ok dictionary
  else
    let ks := pySplit (str ".") keys
    let v0 : Except PyErr JVal :=
      match dictionary with
      | .jstr s => json_loads s
      | v => .ok v
    match v0 with
    | .error e => .error e
    | .ok v => ks.foldlM pyGetItem v

/-- The key-joining expression of `flatten_dict` (line 544):
`parent_key + sep + k if parent_key else k` with `sep = "."`. -/
def pyJoinKey (parent_key k : Str) : Str :=
  if parent_key = [] then k else parent_key ++ str "." ++ k

mutual

/-- Embedding of the loop of `flatten_dict` (lines 541-549); `flattened`
threads the dict being mutated.  The recursive `flattened.update(
flatten_dict(v, new_key))` of the source builds the sub-result in a fresh
dict and merges it with dict-update semantics; threading the accumulator
performs the same `d[k] = v` assignments in the same order, which yields
the same dict. -/
def flattenEntries : List (Str × JVal) → Str → DictE → DictE
  | [], _, flattened => flattened
  | (k, v) :: rest, parent_key, flattened =>
    flattenEntries rest parent_key (flattenVal v (pyJoinKey parent_key k) flattened)

/-- One iteration of the `flatten_dict` loop: nested dicts recurse, any
other value is assigned at the joined key. -/
def flattenVal : JVal → Str → DictE → DictE
  | .jobj sub, new_key, flattened => flattenEntries sub new_key flattened
  | v, new_key, flattened => setKey flattened new_key v

end

/-- Embedding of `flatten_dict` (lines 541-549) at the default arguments
(`parent_key=""`, `sep="."`, the only way the module calls it). -/
def flatten_dict (nested_dict : DictE) : DictE :=
  flattenEntries nested_dict [] []

/-- Embedding of the inner loop of `unflatten_dict` (lines 556-561): walk
`parts`, creating intermediate dicts on demand; reaching a non-dict value
at an intermediate part is Python's `TypeError` (string/int subscription
or item assignment).  The final part is assigned with `d[k] = v`
semantics, silently replacing whatever was there. -/
def insertPath : DictE → List Str → JVal → Except PyErr DictE
  | d, [], _ => .ok d
  | d, [last], v => .ok (setKey d last v)
  | d, p :: rest, v =>
    match assocLookup d p with
    | none =>
      match insertPath [] rest v with
      | .ok sub => .ok (setKey d p (.jobj sub))
      | .error e => .error e
    | some (.jobj sub) =>
      match insertPath sub rest v with
      | .ok sub' => .ok (setKey d p (.jobj sub'))
      | .error e => .error e
    | some _ => .error .typeError

/-- Embedding of `unflatten_dict` (lines 552-562) at the default delimiter
`"."` (the only way the module calls it). -/
def unflatten_dict (d : DictE) : Except PyErr DictE :=
  d.foldlM (fun acc kv => insertPath acc (pySplit (str ".") kv.1) kv.2) []

example : flatten_dict [(str "authority", .jobj [(str "id", .jstr (str "x"))])]
    = [(str "authority.id", .jstr (str "x"))] := by decide

example : unflatten_dict [(str "authority.id", .jstr (str "x"))]
    = .ok [(str "authority", .jobj [(str "id", .jstr (str "x"))])] := by decide

/-- Embedding of `set_key_to_val` (lines 332-337): first write wins. -/
def set_key_to_val (json_dict : DictE) (key : Str) (value : Str) : DictE :=
  if (assocLookup json_dict key).isSome then json_dict
  else json_dict ++ [(key, .jstr value)]

/-- Embedding of `set_key_to_bytes` (lines 344-348). -/
def set_key_to_bytes (json_dict : DictE) (key : Str) (value : Str) : DictE :=
  if (assocLookup json_dict key).isSome then json_dict
  else json_dict ++ [(key, .jstr (str "BYTES:" ++ value))]

/-- Embedding of `sets_key_to_previous_response` (lines 205-208). -/
def sets_key_to_previous_response (json_dict : DictE) (key : Str) (response_data : JVal) :
    DictE :=
  if (assocLookup json_dict key).isSome then json_dict
  else json_dict ++ [(key, response_data)]

/-- Python list indexing `l[i]` with negative-index wrapping. -/
def pyIndex {α : Type} (l : List α) (i : Int) : Except PyErr α :=
  let j : Int := if i < 0 then i + l.length else i
  if h : 0 ≤ j ∧ j.toNat < l.length then .ok (l.get ⟨j.toNat, h.2⟩)
  else .error .indexError

/-- Embedding of `set_key_to_ue_uri` (lines 351-356): the tracker rows are
`(sdk_name, transport, uri)` triples; the uri (index 2) is written only
when the key is absent. -/
def set_key_to_ue_uri (ue_tracker : List (Str × Str × Str)) (json_dict : DictE)
    (key ue : Str) : Except PyErr DictE :=
  let ue_number := pyReplace ue (str "uE") []
  if (assocLookup json_dict key).isSome then .ok json_dict
  else
    match pyIntParse ue_number with
    | none => .error .valueError
    | some n =>
      match pyIndex ue_tracker (n - 1) with
      | .ok row => .ok (json_dict ++ [(key, .jstr row.2.2)])
      | .error e => .error e

/-- Embedding of the first `receive_validation_result` (lines 234-245):
the `"none"` guard returns before the response is read; otherwise the
stripped expectation is compared with `response_data["result"]`
(`KeyError`/`TypeError` surface as the step's `ValueError`, a mismatch as
its `AssertionError`). -/
def receive_validation_result (expected_result : Str) (response_data : JVal) :
    Except PyErr Unit :=
  if expected_result = str "none" then .ok ()
  else
    let e := pyStrip expected_result
    match pyGetItem response_data (str "result") with
    | .error _ => .error .valueError
    | .ok (.jstr a) => if e = a then .ok () else .error .assertionError
    | .ok _ => .error .assertionError

/-- The byte-level marker both byte-comparison steps split on. -/
def googleapis_marker : Bytes := utf8Encode (str "googleapis.com/")

/-- The final comparison shared by both byte-comparison steps:
`actual.split(b"googleapis.com/")[1] == expected.split(b"googleapis.com/")[1]`.
A missing marker makes the `[1]` subscript raise `IndexError`, which the
steps surface as `ValueError`; an unequal pair fails the `assert`. -/
def googleapis_suffix_assert (actual expected : Bytes) : Except PyErr Unit :=
  match (pySplit googleapis_marker actual)[1]?, (pySplit googleapis_marker expected)[1]? with
  | some a, some e => if a = e then .ok () else .error .assertionError
  | _, _ => .error .valueError

/-- The `try: base64.b64decode(val) ... except binascii.Error:` block at
the end of `receive_value_as_bytes` (lines 426-435): a successful decode
compares the decoded bytes, a `binascii.Error` falls back to
`rec_field_value`, and any other failure (non-ASCII `val`) surfaces as
the step's `ValueError`. -/
def finalCompare (val : Str) (rec_field_value : Bytes) (expected_value : Str) :
    Except PyErr Unit :=
  match pyB64Decode val with
  | .ok data_bytes => googleapis_suffix_assert data_bytes (utf8Encode expected_value)
  | .error .binasciiError => googleapis_suffix_assert rec_field_value (utf8Encode expected_value)
  | .error .nonAscii => .error .valueError

/-- The debug-string munging of the rust branch of `receive_value_as_bytes`
(lines 405-413): strip quotes, colons, backslashes and closing braces,
re-escape `x`, strip whitespace, drop the first character. -/
def rust_payload_munge (val : Str) : Str :=
  pyDrop1 (pyStrip (pyReplace (pyReplace (pyReplace (pyReplace (pyReplace
    val (str "\"") []) (str ":") []) (str "\x5C") []) (str "x") ['\x5C', 'x'])
    (str "\x7d") []))

/-- Embedding of `receive_value_as_bytes` (lines 388-442).  Inputs:
the current `context.rust_sender` flag, the resolved sender sdk name, the
on-receive message, the field path and the expected value.  Output: the
`context.rust_sender` flag after the step and the step outcome (the
step's outer handlers surface an `assert` failure as `AssertionError` and
every other exception as `ValueError`). -/
def receive_value_as_bytes (rust_sender : Bool) (sender_sdk_name : Str)
    (on_receive_msg : JVal) (field_name expected_value0 : Str) :
    Bool × Except PyErr Unit :=
  let expected_value := pyStrip expected_value0
  if sender_sdk_name = str "rust" ∧ rust_sender = false then
    match
      (match pyGetItem on_receive_msg (str "data") with
       | .ok d => pyGetItem d (str "payload")
       | .error e => .error e) with
    | .ok (.jstr val) =>
      (rust_sender, finalCompare val (utf8Encode (rust_payload_munge val)) expected_value)
    | .ok _ => (rust_sender, .error .valueError)
    | .error _ => (rust_sender, .error .valueError)
  else
    match pyGetItem on_receive_msg (str "data") with
    | .error _ => (rust_sender, .error .valueError)
    | .ok d =>
      match access_nested_dict d field_name with
      | .error _ => (rust_sender, .error .valueError)
      | .ok v =>
        if rust_sender then
          match v with
          | .jstr val =>
            match (pySplit (str ".com/") val)[1]? with
            | some frag =>
              (false, finalCompare val
                (utf8Encode (str "type.googleapis.com/" ++ frag)) expected_value)
            | none => (false, .error .valueError)
          | _ => (false, .error .valueError)
        else
          match v with
          | .jstr val => (rust_sender, finalCompare val (utf8Encode val) expected_value)
          | _ => (rust_sender, .error .valueError)

/-- The post-processing and comparison at the end of
`receive_rpc_response_as_bytes` (lines 471-473): decode the bytes as
UTF-8 (failure surfaces as `ValueError`), re-encode with
`unicode_escape`, then compare after the marker. -/
def rpcFinalize (actual : Bytes) (expected_value : Str) : Except PyErr Unit :=
  match utf8Decode actual with
  | none => .error .valueError
  | some s => googleapis_suffix_assert (unicodeEscape s) (utf8Encode expected_value)

/-- The rust-sender reinterpretation inside `receive_rpc_response_as_bytes`
(lines 464-467): base64-decode, UTF-8-decode, drop quotes and backslashes,
re-escape `x`, drop the first character. -/
def rpc_rust_sender_munge (ds : Str) : Str :=
  pyDrop1 (pyReplace (pyReplace (pyReplace ds (str "\"") []) (str "\x5C") [])
    (str "x") ['\x5C', 'x'])

/-- The debug-string munging of the rust branch of
`receive_rpc_response_as_bytes` (lines 450-459), applied to
`actual_value.split("value")[1]`. -/
def rpc_rust_debug_munge (seg : Str) : Str :=
  pyDrop1 (pyStrip (pyReplace (pyReplace (pyReplace (pyReplace
    (pyReplace seg (str "\"") []) (str ":") []) (str "\x5C") [])
    (str "x") ['\x5C', 'x']) (str "\x7d") []))

/-- Embedding of `receive_rpc_response_as_bytes` (lines 445-481).  Output:
the `context.rust_sender` flag after the step and the step outcome
(`KeyError` is re-raised as `KeyError`, an `assert` failure as
`AssertionError`, everything else as `ValueError`). -/
def receive_rpc_response_as_bytes (rust_sender : Bool) (sdk_name : Str)
    (response_data : JVal) (field_name expected_value : Str) :
    Bool × Except PyErr Unit :=
  if sdk_name = str "rust" then
    match pyGetItem response_data (str "data") with
    | .error .keyError => (rust_sender, .error .keyError)
    | .error _ => (rust_sender, .error .valueError)
    | .ok (.jstr av) =>
      match (pySplit (str "value") av)[1]? with
      | none => (rust_sender, .error .valueError)
      | some seg =>
        (rust_sender, rpcFinalize (utf8Encode (rpc_rust_debug_munge seg)) expected_value)
    | .ok _ => (rust_sender, .error .valueError)
  else
    match access_nested_dict response_data field_name with
    | .error .keyError => (rust_sender, .error .keyError)
    | .error _ => (rust_sender, .error .valueError)
    | .ok v =>
      if rust_sender then
        match v with
        | .jstr s =>
          match pyB64Decode s with
          | .ok bs =>
            match utf8Decode bs with
            | some ds => (false, rpcFinalize (utf8Encode (rpc_rust_sender_munge ds)) expected_value)
            | none => (false, .error .valueError)
          | .error _ => (false, .error .valueError)
        | _ => (false, .error .valueError)
      else
        match v with
        | .jstr s => (rust_sender, rpcFinalize (utf8Encode s) expected_value)
        | _ => (rust_sender, .error .valueError)

/-- Modelled from the spec: the Path Codec contract of §4.2 says
`accessNested` walks segment by segment and decodes *any* current node
that is a string-encoded structure before descending, failing only when a
segment is absent.  (The code under test decodes the root only; this
definition is the spec-side reference for that comparison.) -/
def specAccess : JVal → List Str → Except PyErr JVal
  | j, [] => .ok j
  | j, k :: rest =>
    let j' : Except PyErr JVal :=
      match j with
      | .jstr s => json_loads s
      | v => .ok v
    match j' with
    | .error e => .error e
    | .ok (.jobj d) =>
      match assocLookup d k with
      | some v => specAccess v rest
      | none => .error .keyError
    | .ok _ => .error .keyError

/-- Pure nested lookup through mappings only: the reference against which
the walk of `access_nested_dict` is characterised. -/
def pureLookup : JVal → List Str → Option JVal
  | v, [] => some v
  | .jobj d, k :: rest =>
    match assocLookup d k with
    | some v => pureLookup v rest
    | none => none
  | _, _ :: _ => none

/-! ### Generic `Except` bind reductions used throughout the proofs -/

theorem except_bind_ok {ε α β : Type} (a : α) (f : α → Except ε β) :
    (Except.ok a : Except ε α) >>= f = f a := rfl

theorem except_bind_error {ε α β : Type} (e : ε) (f : α → Except ε β) :
    (Except.error e : Except ε α) >>= f = .error e := rfl

/-! ### Claim C10 -/

/-- C10: when the expected result string is exactly `"none"`,
`receive_validation_result` returns immediately without reading the
response, so it passes for every response value, including responses
whose `result` field is absent. -/
theorem C10_validation_none_short_circuits (response_data : JVal) :
    receive_validation_result (str "none") response_data = .ok () := rfl

/-! ### Claim C8 -/

/-- C8: a key already present in the request payload is never overwritten:
each of the four set steps (`sets ... to`, `sets ... to b`, sets to the
previous response, sets to an entity URI) leaves the payload unchanged
when the key exists. -/
theorem C8_first_write_wins (d : DictE) (key : Str) (v0 : JVal) (value : Str)
    (resp : JVal) (tracker : List (Str × Str × Str)) (ue : Str)
    (h : assocLookup d key = some v0) :
    set_key_to_val d key value = d ∧
    set_key_to_bytes d key value = d ∧
    sets_key_to_previous_response d key resp = d ∧
    set_key_to_ue_uri tracker d key ue = .ok d := by
  have hs : (assocLookup d key).isSome = true := by rw [h]; rfl
  refine ⟨?_, ?_, ?_, ?_⟩ <;>
    simp [set_key_to_val, set_key_to_bytes, sets_key_to_previous_response,
      set_key_to_ue_uri, hs]

/-- Witness for C8 at a concrete payload that already holds the key. -/
theorem C8_first_write_wins_witness :
    set_key_to_val [(str "a", .jstr (str "v"))] (str "a") (str "w")
        = [(str "a", .jstr (str "v"))] ∧
    set_key_to_bytes [(str "a", .jstr (str "v"))] (str "a") (str "w")
        = [(str "a", .jstr (str "v"))] ∧
    sets_key_to_previous_response [(str "a", .jstr (str "v"))] (str "a") .jnull
        = [(str "a", .jstr (str "v"))] ∧
    set_key_to_ue_uri [] [(str "a", .jstr (str "v"))] (str "a") (str "uE1")
        = .ok [(str "a", .jstr (str "v"))] :=
  C8_first_write_wins [(str "a", .jstr (str "v"))] (str "a") (.jstr (str "v"))
    (str "w") .jnull [] (str "uE1") (by decide)

/-! ### Claim C3 -/

/-- C3 counterexample: with the nested key first and the conflicting leaf
key second, `unflatten_dict` raises nothing at all: it silently replaces
the nested mapping built for `"a.b"` with the leaf written for `"a"`,
contradicting the claim that every prefix conflict fails with a
`PathConflict` error and is never silently overwritten. -/
theorem C3_counterexample :
    unflatten_dict [(str "a.b", .jstr (str "y")), (str "a", .jstr (str "x"))]
      = .ok [(str "a", .jstr (str "x"))] := by decide

/-! ### Claim C5 -/

/-- C5 counterexample: `cast("UCode.OK", "int")` is a string on which
integer parsing fails, yet `cast` returns the integer `0` (the resolved
enum member) instead of the null value the claim requires for every
unparsable string. -/
theorem C5_counterexample :
    cast' (str "UCode.OK") (str "int") true = .ok (.jint 0) ∧
    pyIntParse (str "UCode.OK") = none ∧
    (Except.ok (JVal.jint 0) : Except PyErr JVal) ≠ .ok .jnull := by
  exact ⟨by decide, by decide, by decide⟩

/-- C5 amended: for every string value that does not contain the
enumerated-code marker `"UCode"`, casting to `"int"` returns the parsed
integer for a valid integer literal and a null value, without raising,
when parsing fails. -/
theorem C5_amended (value : Str) (h : containsSub (str "UCode") value = false) :
    cast' value (str "int") true
      = .ok (match pyIntParse value with
             | some n => .jint n
             | none => .jnull) := by
  cases hp : pyIntParse value with
  | none => simp [cast', h, hp]
  | some n => simp [cast', h, hp]

/-- Witness for C5 at the claim's own examples. -/
theorem C5_amended_witness :
    cast' (str "42") (str "int") true = .ok (.jint 42) ∧
    cast' (str "abc") (str "int") true = .ok .jnull :=
  ⟨C5_amended (str "42") (by decide), C5_amended (str "abc") (by decide)⟩

/-! ### Claim C7 -/

/-- C7 counterexample: a path that is not a `.jar`, not a `.py`, and not
executable, but whose name ends in `"rust_tck"`, is accepted by
`create_command` without any error, contradicting the claim that every
such artifact fails before a process is spawned. -/
theorem C7_counterexample :
    pyEndsWith (str "up_client/rust_tck") (str ".jar") = false ∧
    pyEndsWith (str "up_client/rust_tck") (str ".py") = false ∧
    create_command (LaunchEnv.mk (str "linux") (str "/root") (fun _ => false))
        (str "up_client/rust_tck") (str "t") (str "s")
      = .ok [str "/root/up_client/rust_tck", str "--transport", str "t",
             str "--sdkname", str "s"] := by
  exact ⟨by decide, by decide, by decide⟩

/-- C7 amended: an artifact path that is not a `.jar`, not a `.py`, not
executable, and does not end in `"rust_tck"` makes `create_command` fail
with the `Exception` (the `UnsupportedAgentArtifact` of the spec), and the
launch sequence for it never reaches `create_subprocess`; an unknown agent
kind fails with `ValueError` before any process is spawned. -/
theorem C7_amended (env : LaunchEnv) (fp t s : Str)
    (h1 : pyEndsWith fp (str ".jar") = false)
    (h2 : pyEndsWith fp (str ".py") = false)
    (h3 : env.access_x_ok (env.cwd_parent ++ (str "/" ++ fp)) = false)
    (h4 : pyEndsWith fp (str "rust_tck") = false) :
    create_command env fp t s = .error .exception ∧
    (∀ base, sdk_paths base = some fp → launch_agent env base t s = .error .exception) ∧
    (∀ base, sdk_paths base = none → launch_agent env base t s = .error .valueError) := by
  have hc : create_command env fp t s = .error .exception := by
    simp [create_command, h1, h2, h3, h4]
  refine ⟨hc, ?_, ?_⟩
  · intro base hb
    simp [launch_agent, hb, hc]
  · intro base hb
    simp [launch_agent, hb]

/-- Witness for C7 at a concrete unknown artifact and unknown kind. -/
theorem C7_amended_witness :
    create_command (LaunchEnv.mk (str "linux") (str "/root") (fun _ => false))
        (str "agents/mystery.bin") (str "t") (str "s") = .error .exception :=
  (C7_amended (LaunchEnv.mk (str "linux") (str "/root") (fun _ => false))
    (str "agents/mystery.bin") (str "t") (str "s")
    (by decide) (by decide) rfl (by decide)).1

/-! ### Claim C6 -/

/-- The segment walk of `access_nested_dict` succeeds exactly when the
pure nested-mapping lookup succeeds: no decoding happens mid-walk, and an
absent segment or non-mapping node makes the walk fail. -/
theorem walk_ok_iff :
    ∀ (segs : List Str) (j v : JVal),
      List.foldlM pyGetItem j segs = .ok v ↔ pureLookup j segs = some v := by
  intro segs
  induction segs with
  | nil =>
    intro j v
    have hf : List.foldlM pyGetItem j [] = (.ok j : Except PyErr JVal) := rfl
    rw [hf]
    cases j <;> exact ⟨fun h => by cases h; rfl, fun h => by cases h; rfl⟩
  | cons k rest ih =>
    intro j v
    cases j with
    | jobj d =>
      show (pyGetItem (.jobj d) k >>= fun j' => List.foldlM pyGetItem j' rest) = .ok v ↔ _
      cases hl : assocLookup d k with
      | some j' =>
        simp only [pyGetItem, hl, except_bind_ok, pureLookup]
        exact ih j' v
      | none =>
        simp only [pyGetItem, hl, except_bind_error, pureLookup]
        constructor
        · intro h; cases h
        · intro h; cases h
    | jstr s =>
      show (pyGetItem (.jstr s) k >>= fun j' => List.foldlM pyGetItem j' rest) = .ok v ↔ _
      simp only [pyGetItem, except_bind_error, pureLookup]
      constructor
      · intro h; cases h
      · intro h; cases h
    | jint n =>
      show (pyGetItem (.jint n) k >>= fun j' => List.foldlM pyGetItem j' rest) = .ok v ↔ _
      simp only [pyGetItem, except_bind_error, pureLookup]
      constructor
      · intro h; cases h
      · intro h; cases h
    | jbool b =>
      show (pyGetItem (.jbool b) k >>= fun j' => List.foldlM pyGetItem j' rest) = .ok v ↔ _
      simp only [pyGetItem, except_bind_error, pureLookup]
      constructor
      · intro h; cases h
      · intro h; cases h
    | jnull =>
      show (pyGetItem .jnull k >>= fun j' => List.foldlM pyGetItem j' rest) = .ok v ↔ _
      simp only [pyGetItem, except_bind_error, pureLookup]
      constructor
      · intro h; cases h
      · intro h; cases h
    | jfloatLit s =>
      show (pyGetItem (.jfloatLit s) k >>= fun j' => List.foldlM pyGetItem j' rest) = .ok v ↔ _
      simp only [pyGetItem, except_bind_error, pureLookup]
      constructor
      · intro h; cases h
      · intro h; cases h
    | jbytes bs =>
      show (pyGetItem (.jbytes bs) k >>= fun j' => List.foldlM pyGetItem j' rest) = .ok v ↔ _
      simp only [pyGetItem, except_bind_error, pureLookup]
      constructor
      · intro h; cases h
      · intro h; cases h

/-- C6 counterexample: at a root mapping whose `"a"` field holds a
string-encoded structure, the path `"a.b"` does not decode the string and
descend (which would yield `"c"`, as the spec-side walk `specAccess`
does): the walk subscripts the string and fails with `TypeError`, not
with a path-not-found error. -/
theorem C6_counterexample :
    access_nested_dict (.jobj [(str "a", .jstr (str "\x7b\"b\": \"c\"\x7d"))]) (str "a.b")
      = .error .typeError ∧
    specAccess (.jobj [(str "a", .jstr (str "\x7b\"b\": \"c\"\x7d"))]) [str "a", str "b"]
      = .ok (.jstr (str "c")) := by
  exact ⟨by decide, by decide⟩

/-- C6 amended: `access_nested_dict` walks the dotted path segment by
segment after decoding the root — and only the root — when it is a
string-encoded structure; the walk succeeds exactly when every segment is
present through nested mappings (so an absent segment, or a non-mapping
node such as a string-encoded structure met mid-walk, fails with an
error), and a root whose decode fails propagates the decode error. -/
theorem C6_amended (j : JVal) (keys : Str) (hk : keys ≠ []) :
    ((∀ s, j ≠ .jstr s) →
      ∀ v, access_nested_dict j keys = .ok v
        ↔ pureLookup j (pySplit (str ".") keys) = some v) ∧
    (∀ s r, j = .jstr s → json_loads s = .ok r →
      ∀ v, access_nested_dict j keys = .ok v
        ↔ pureLookup r (pySplit (str ".") keys) = some v) ∧
    (∀ s e, j = .jstr s → json_loads s = .error e →
      access_nested_dict j keys = .error e) := by
  refine ⟨?_, ?_, ?_⟩
  · intro hns v
    have hroot : (match j with
        | .jstr s => json_loads s
        | v => .ok v) = (.ok j : Except PyErr JVal) := by
      cases j with
      | jstr s => exact absurd rfl (hns s)
      | jint n => rfl
      | jbool b => rfl
      | jnull => rfl
      | jfloatLit s => rfl
      | jbytes bs => rfl
      | jobj d => rfl
    simp only [access_nested_dict, hk, if_neg hk, hroot]
    exact walk_ok_iff _ j v
  · intro s r hj hr v
    subst hj
    simp only [access_nested_dict, if_neg hk, hr]
    exact walk_ok_iff _ r v
  · intro s e hj hr
    subst hj
    simp only [access_nested_dict, if_neg hk, hr]

/-- Witness for C6 at a concrete nested mapping and path. -/
theorem C6_amended_witness :
    access_nested_dict (.jobj [(str "a", .jobj [(str "b", .jstr (str "x"))])]) (str "a.b")
      = .ok (.jstr (str "x")) :=
  ((C6_amended (.jobj [(str "a", .jobj [(str "b", .jstr (str "x"))])]) (str "a.b")
      (by decide)).1 (fun s h => JVal.noConfusion h) (.jstr (str "x"))).mpr (by decide)

/-! ### Claim C2 -/

/-- C2: in the non-quirky normalization path of `receive_value_as_bytes`
(flag clear, sender not the quirky implementation), a successfully
base64-decodable extracted string is compared through its decoded bytes
(`"AAECAw=="` yields the bytes 0,1,2,3), and a `binascii.Error` from the
decode falls back to comparing the raw UTF-8 encoding of the string. -/
theorem C2_base64_canonicalization (msg d : JVal) (sender field expected val : Str)
    (hs : sender ≠ str "rust")
    (h1 : pyGetItem msg (str "data") = .ok d)
    (h2 : access_nested_dict d field = .ok (.jstr val)) :
    (∀ bs, pyB64Decode val = .ok bs →
      receive_value_as_bytes false sender msg field expected
        = (false, googleapis_suffix_assert bs (utf8Encode (pyStrip expected)))) ∧
    (pyB64Decode val = .error .binasciiError →
      receive_value_as_bytes false sender msg field expected
        = (false, googleapis_suffix_assert (utf8Encode val) (utf8Encode (pyStrip expected)))) ∧
    pyB64Decode (str "AAECAw==") = .ok [0, 1, 2, 3] := by
  refine ⟨?_, ?_, by decide⟩
  · intro bs hb
    simp [receive_value_as_bytes, hs, h1, h2, finalCompare, hb]
  · intro hb
    simp [receive_value_as_bytes, hs, h1, h2, finalCompare, hb]

/-- Witness for C2: a valid-base64 response value is compared through its
decoded bytes. -/
theorem C2_base64_canonicalization_witness :
    receive_value_as_bytes false (str "python")
        (.jobj [(str "data", .jobj [(str "f", .jstr (str "AAECAw=="))])])
        (str "f") (str "e")
      = (false, googleapis_suffix_assert [0, 1, 2, 3] (utf8Encode (pyStrip (str "e")))) :=
  (C2_base64_canonicalization
    (.jobj [(str "data", .jobj [(str "f", .jstr (str "AAECAw=="))])])
    (.jobj [(str "f", .jstr (str "AAECAw=="))])
    (str "python") (str "f") (str "e") (str "AAECAw==")
    (by decide) (by decide) (by decide)).1 [0, 1, 2, 3] (by decide)

/-! ### Claim C9 -/

/-- C9: the quirky-sender flag is single-shot.  `create_sdk_data` sets it
for a rust sdk with the `send` command; the next `receive_value_as_bytes`
that reads it while set applies exactly one extra reinterpretation pass
(rebuilding `"type.googleapis.com/" + val.split(".com/")[1]` as the
fallback canonical value) and clears the flag in every outcome of that
branch; with the flag clear and a non-quirky sender no reinterpretation
pass is applied, so the pass cannot recur until the flag is set again. -/
theorem C9_rust_sender_single_shot
    (r0 : Option Bool) (sdk cmd : Str) (msg d : JVal) (sender field expected : Str)
    (s frag : Str) :
    (containsSub (str "rust") sdk = true → cmd = str "send" →
      update_rust_sender r0 sdk cmd = true) ∧
    (pyGetItem msg (str "data") = .ok d → access_nested_dict d field = .ok (.jstr s) →
      (receive_value_as_bytes true sender msg field expected).1 = false) ∧
    (pyGetItem msg (str "data") = .ok d → access_nested_dict d field = .ok (.jstr s) →
      (pySplit (str ".com/") s)[1]? = some frag →
      receive_value_as_bytes true sender msg field expected
        = (false, finalCompare s (utf8Encode (str "type.googleapis.com/" ++ frag))
            (pyStrip expected))) ∧
    (pyGetItem msg (str "data") = .ok d → access_nested_dict d field = .ok (.jstr s) →
      sender ≠ str "rust" →
      receive_value_as_bytes false sender msg field expected
        = (false, finalCompare s (utf8Encode s) (pyStrip expected))) := by
  refine ⟨?_, ?_, ?_, ?_⟩
  · intro hr hc
    simp [update_rust_sender, hr, hc]
  · intro h1 h2
    cases hsp : (pySplit (str ".com/") s)[1]? with
    | some frag' => simp [receive_value_as_bytes, h1, h2, hsp]
    | none => simp [receive_value_as_bytes, h1, h2, hsp]
  · intro h1 h2 hsp
    simp [receive_value_as_bytes, h1, h2, hsp]
  · intro h1 h2 hs
    simp [receive_value_as_bytes, hs, h1, h2]

/-- Witness for C9: a set flag is consumed by the next comparison, which
rebuilds the well-known URI prefix and comes out with the flag cleared. -/
theorem C9_rust_sender_single_shot_witness :
    receive_value_as_bytes true (str "python")
        (.jobj [(str "data", .jobj [(str "f",
          .jstr (str "type.googleapis.com/google.protobuf.Int32Value"))])])
        (str "f") (str "e")
      = (false, finalCompare (str "type.googleapis.com/google.protobuf.Int32Value")
          (utf8Encode (str "type.googleapis.com/" ++ str "google.protobuf.Int32Value"))
          (pyStrip (str "e"))) :=
  (C9_rust_sender_single_shot none (str "rust_1") (str "send")
    (.jobj [(str "data", .jobj [(str "f",
      .jstr (str "type.googleapis.com/google.protobuf.Int32Value"))])])
    (.jobj [(str "f", .jstr (str "type.googleapis.com/google.protobuf.Int32Value"))])
    (str "python") (str "f") (str "e")
    (str "type.googleapis.com/google.protobuf.Int32Value")
    (str "google.protobuf.Int32Value")).2.2.1 (by decide) (by decide) (by decide)

/-! ### Claim C1: structure of the marker-suffix comparison -/

theorem split_structure {α : Type} [DecidableEq α] (s0 : α) (sr : List α) :
    ∀ l : List α,
      (specSuffixAfter (s0 :: sr) l = none → splitOnSubAux s0 sr l = [l]) ∧
      (∀ suf, specSuffixAfter (s0 :: sr) l = some suf →
        ∃ pre, splitOnSubAux s0 sr l = pre :: splitOnSubAux s0 sr suf) := by
  intro l
  induction l with
  | nil =>
    refine ⟨fun _ => splitOnSubAux_nil s0 sr, fun suf h => ?_⟩
    simp [specSuffixAfter] at h
  | cons a rest ih =>
    by_cases hp : ((s0 :: sr).isPrefixOf (a :: rest) : Bool) = true
    · constructor
      · intro h
        simp [specSuffixAfter, hp] at h
      · intro suf h
        simp only [specSuffixAfter, hp, if_true, if_pos] at h
        refine ⟨[], ?_⟩
        rw [splitOnSubAux_cons, if_pos hp]
        have hdrop : (a :: rest).drop (s0 :: sr).length = rest.drop sr.length := by
          simp [List.drop_succ_cons]
        rw [← Option.some_inj.mp h, hdrop]
    · have hs : specSuffixAfter (s0 :: sr) (a :: rest) = specSuffixAfter (s0 :: sr) rest := by
        simp [specSuffixAfter, hp]
      constructor
      · intro h
        rw [hs] at h
        rw [splitOnSubAux_cons, if_neg hp, ih.1 h]
      · intro suf h
        rw [hs] at h
        obtain ⟨pre, hpre⟩ := ih.2 suf h
        refine ⟨a :: pre, ?_⟩
        rw [splitOnSubAux_cons, if_neg hp, hpre]

theorem specSuffixAfter_none_iff {α : Type} [DecidableEq α] (s0 : α) (sr : List α) :
    ∀ l, specSuffixAfter (s0 :: sr) l = none ↔ containsSub (s0 :: sr) l = false := by
  intro l
  induction l with
  | nil => simp [specSuffixAfter, containsSub, List.isEmpty]
  | cons a rest ih =>
    cases hp : ((s0 :: sr).isPrefixOf (a :: rest) : Bool) with
    | true => simp [specSuffixAfter, containsSub, hp]
    | false => simp [specSuffixAfter, containsSub, hp, ih]

theorem splitOnSubAux_ne_nil {α : Type} [DecidableEq α] (s0 : α) (sr l : List α) :
    splitOnSubAux s0 sr l ≠ [] := by
  cases l with
  | nil => simp [splitOnSubAux_nil]
  | cons a rest =>
    rw [splitOnSubAux_cons]
    split
    · simp
    · split <;> simp

/-- Head byte of the marker. -/
def gmHead : Nat := 103

/-- Tail bytes of the marker. -/
def gmTail : Bytes := [111, 111, 103, 108, 101, 97, 112, 105, 115, 46, 99, 111, 109, 47]

theorem googleapis_marker_cons : googleapis_marker = gmHead :: gmTail := by decide

theorem split_cons_exists (l : Bytes) :
    ∃ g gs, splitOnSubAux gmHead gmTail l = g :: gs := by
  cases hgs : splitOnSubAux gmHead gmTail l with
  | nil => exact absurd hgs (splitOnSubAux_ne_nil gmHead gmTail l)
  | cons g gs => exact ⟨g, gs, rfl⟩

theorem split1_eq_none_iff (l : Bytes) :
    (pySplit googleapis_marker l)[1]? = none ↔ specSuffixAfter googleapis_marker l = none := by
  rw [googleapis_marker_cons]
  show (splitOnSubAux gmHead gmTail l)[1]? = none ↔ _
  constructor
  · intro h
    rcases ho : specSuffixAfter (gmHead :: gmTail) l with _ | suf
    · rfl
    · obtain ⟨pre, hp⟩ := (split_structure gmHead gmTail l).2 suf ho
      rw [hp] at h
      obtain ⟨g, gs, hgs⟩ := split_cons_exists suf
      rw [hgs] at h
      simp [List.getElem?_cons_succ, List.getElem?_cons_zero] at h
  · intro h
    rw [(split_structure gmHead gmTail l).1 h]
    simp [List.getElem?_cons_succ, List.getElem?_nil]

theorem split1_eq_of_some (l suf : Bytes)
    (h : specSuffixAfter googleapis_marker l = some suf) :
    (pySplit googleapis_marker l)[1]? = (pySplit googleapis_marker suf).head? := by
  rw [googleapis_marker_cons] at h
  show (splitOnSubAux gmHead gmTail l)[1]? = (splitOnSubAux gmHead gmTail suf).head?
  obtain ⟨pre, hp⟩ := (split_structure gmHead gmTail l).2 suf h
  rw [hp]
  obtain ⟨g, gs, hgs⟩ := split_cons_exists suf
  rw [hgs]
  simp [List.getElem?_cons_succ, List.getElem?_cons_zero, List.head?_cons]

theorem gsa_error_of_absent (a e : Bytes)
    (h : containsSub googleapis_marker a = false ∨ containsSub googleapis_marker e = false) :
    googleapis_suffix_assert a e = .error .valueError := by
  unfold googleapis_suffix_assert
  rcases h with h | h
  · have hn : (pySplit googleapis_marker a)[1]? = none := by
      rw [split1_eq_none_iff, googleapis_marker_cons]
      exact (specSuffixAfter_none_iff gmHead gmTail a).mpr
        (by rw [googleapis_marker_cons] at h; exact h)
    rw [hn]
  · have hn : (pySplit googleapis_marker e)[1]? = none := by
      rw [split1_eq_none_iff, googleapis_marker_cons]
      exact (specSuffixAfter_none_iff gmHead gmTail e).mpr
        (by rw [googleapis_marker_cons] at h; exact h)
    rw [hn]
    cases (pySplit googleapis_marker a)[1]? <;> rfl

theorem gsa_ne_ok (a e : Bytes) (h : containsSub googleapis_marker e = false) :
    googleapis_suffix_assert a e ≠ .ok () := by
  rw [gsa_error_of_absent a e (Or.inr h)]
  intro hh
  cases hh

theorem finalCompare_ne_ok (val : Str) (rec_v : Bytes) (exp : Str)
    (h : containsSub googleapis_marker (utf8Encode exp) = false) :
    finalCompare val rec_v exp ≠ .ok () := by
  unfold finalCompare
  cases hb : pyB64Decode val with
  | ok bs => exact gsa_ne_ok _ _ h
  | error f =>
    cases f with
    | binasciiError => exact gsa_ne_ok _ _ h
    | nonAscii => intro hh; cases hh

theorem rpcFinalize_ne_ok (a : Bytes) (exp : Str)
    (h : containsSub googleapis_marker (utf8Encode exp) = false) :
    rpcFinalize a exp ≠ .ok () := by
  unfold rpcFinalize
  cases hd : utf8Decode a with
  | none => intro hh; cases hh
  | some s => exact gsa_ne_ok _ _ h

theorem receive_value_shape (flag : Bool) (sender : Str) (msg : JVal) (field exp : Str) :
    (∃ v r, (receive_value_as_bytes flag sender msg field exp).2
        = finalCompare v r (pyStrip exp)) ∨
    (∃ err, (receive_value_as_bytes flag sender msg field exp).2 = .error err) := by
  unfold receive_value_as_bytes
  split
  · split
    · exact Or.inl ⟨_, _, rfl⟩
    · exact Or.inr ⟨_, rfl⟩
    · exact Or.inr ⟨_, rfl⟩
  · split
    · exact Or.inr ⟨_, rfl⟩
    · split
      · exact Or.inr ⟨_, rfl⟩
      · split
        · split
          · split
            · exact Or.inl ⟨_, _, rfl⟩
            · exact Or.inr ⟨_, rfl⟩
          · exact Or.inr ⟨_, rfl⟩
        · split
          · exact Or.inl ⟨_, _, rfl⟩
          · exact Or.inr ⟨_, rfl⟩

theorem receive_rpc_shape (flag : Bool) (sdk : Str) (resp : JVal) (field exp : Str) :
    (∃ r, (receive_rpc_response_as_bytes flag sdk resp field exp).2 = rpcFinalize r exp) ∨
    (∃ err, (receive_rpc_response_as_bytes flag sdk resp field exp).2 = .error err) := by
  by_cases hsdk : sdk = str "rust"
  · cases hg : pyGetItem resp (str "data") with
    | error e =>
      refine Or.inr ⟨if e = PyErr.keyError then PyErr.keyError else PyErr.valueError, ?_⟩
      cases e <;> simp [receive_rpc_response_as_bytes, hsdk, hg]
    | ok v =>
      cases v with
      | jstr av =>
        cases hsp : (pySplit (str "value") av)[1]? with
        | none =>
          refine Or.inr ⟨PyErr.valueError, ?_⟩
          simp [receive_rpc_response_as_bytes, hsdk, hg, hsp]
        | some seg =>
          refine Or.inl ⟨utf8Encode (rpc_rust_debug_munge seg), ?_⟩
          simp [receive_rpc_response_as_bytes, hsdk, hg, hsp]
      | jint n =>
        refine Or.inr ⟨PyErr.valueError, ?_⟩
        simp [receive_rpc_response_as_bytes, hsdk, hg]
      | jbool b =>
        refine Or.inr ⟨PyErr.valueError, ?_⟩
        simp [receive_rpc_response_as_bytes, hsdk, hg]
      | jnull =>
        refine Or.inr ⟨PyErr.valueError, ?_⟩
        simp [receive_rpc_response_as_bytes, hsdk, hg]
      | jfloatLit s =>
        refine Or.inr ⟨PyErr.valueError, ?_⟩
        simp [receive_rpc_response_as_bytes, hsdk, hg]
      | jbytes bs =>
        refine Or.inr ⟨PyErr.valueError, ?_⟩
        simp [receive_rpc_response_as_bytes, hsdk, hg]
      | jobj d =>
        refine Or.inr ⟨PyErr.valueError, ?_⟩
        simp [receive_rpc_response_as_bytes, hsdk, hg]
  · cases ha : access_nested_dict resp field with
    | error e =>
      refine Or.inr ⟨if e = PyErr.keyError then PyErr.keyError else PyErr.valueError, ?_⟩
      cases e <;> simp [receive_rpc_response_as_bytes, hsdk, ha]
    | ok v =>
      cases flag with
      | true =>
        cases v with
        | jstr s =>
          cases hb : pyB64Decode s with
          | ok bs =>
            cases hd : utf8Decode bs with
            | some ds =>
              refine Or.inl ⟨utf8Encode (rpc_rust_sender_munge ds), ?_⟩
              simp [receive_rpc_response_as_bytes, hsdk, ha, hb, hd]
            | none =>
              refine Or.inr ⟨PyErr.valueError, ?_⟩
              simp [receive_rpc_response_as_bytes, hsdk, ha, hb, hd]
          | error f =>
            refine Or.inr ⟨PyErr.valueError, ?_⟩
            simp [receive_rpc_response_as_bytes, hsdk, ha, hb]
        | jint n =>
          refine Or.inr ⟨PyErr.valueError, ?_⟩
          simp [receive_rpc_response_as_bytes, hsdk, ha]
        | jbool b =>
          refine Or.inr ⟨PyErr.valueError, ?_⟩
          simp [receive_rpc_response_as_bytes, hsdk, ha]
        | jnull =>
          refine Or.inr ⟨PyErr.valueError, ?_⟩
          simp [receive_rpc_response_as_bytes, hsdk, ha]
        | jfloatLit fs =>
          refine Or.inr ⟨PyErr.valueError, ?_⟩
          simp [receive_rpc_response_as_bytes, hsdk, ha]
        | jbytes bs =>
          refine Or.inr ⟨PyErr.valueError, ?_⟩
          simp [receive_rpc_response_as_bytes, hsdk, ha]
        | jobj d =>
          refine Or.inr ⟨PyErr.valueError, ?_⟩
          simp [receive_rpc_response_as_bytes, hsdk, ha]
      | false =>
        cases v with
        | jstr s =>
          refine Or.inl ⟨utf8Encode s, ?_⟩
          simp [receive_rpc_response_as_bytes, hsdk, ha]
        | jint n =>
          refine Or.inr ⟨PyErr.valueError, ?_⟩
          simp [receive_rpc_response_as_bytes, hsdk, ha]
        | jbool b =>
          refine Or.inr ⟨PyErr.valueError, ?_⟩
          simp [receive_rpc_response_as_bytes, hsdk, ha]
        | jnull =>
          refine Or.inr ⟨PyErr.valueError, ?_⟩
          simp [receive_rpc_response_as_bytes, hsdk, ha]
        | jfloatLit fs =>
          refine Or.inr ⟨PyErr.valueError, ?_⟩
          simp [receive_rpc_response_as_bytes, hsdk, ha]
        | jbytes bs =>
          refine Or.inr ⟨PyErr.valueError, ?_⟩
          simp [receive_rpc_response_as_bytes, hsdk, ha]
        | jobj d =>
          refine Or.inr ⟨PyErr.valueError, ?_⟩
          simp [receive_rpc_response_as_bytes, hsdk, ha]

/-- C1: every byte-field comparison of the normalizer goes through the
marker-suffix assertion: a missing `"googleapis.com/"` marker on either
side makes the assertion fail with an error (and then neither
`receive_value_as_bytes` nor `receive_rpc_response_as_bytes` can pass);
the outcome depends only on the parts after the first marker occurrence
(prefix differences are tolerated on both sides); and when the marker
occurs exactly once in each value the assertion passes exactly when the
suffixes after it are equal. -/
theorem C1_marker_suffix_comparison (a1 a2 e1 e2 : Bytes) (exp : Str) :
    (containsSub googleapis_marker a1 = false ∨ containsSub googleapis_marker e1 = false →
      googleapis_suffix_assert a1 e1 = .error .valueError) ∧
    (specSuffixAfter googleapis_marker a1 = specSuffixAfter googleapis_marker a2 →
      googleapis_suffix_assert a1 e1 = googleapis_suffix_assert a2 e1) ∧
    (specSuffixAfter googleapis_marker e1 = specSuffixAfter googleapis_marker e2 →
      googleapis_suffix_assert a1 e1 = googleapis_suffix_assert a1 e2) ∧
    (∀ sa se, specSuffixAfter googleapis_marker a1 = some sa →
      specSuffixAfter googleapis_marker e1 = some se →
      containsSub googleapis_marker sa = false →
      containsSub googleapis_marker se = false →
      (googleapis_suffix_assert a1 e1 = .ok () ↔ sa = se)) ∧
    (containsSub googleapis_marker (utf8Encode (pyStrip exp)) = false →
      ∀ flag sender msg field,
        (receive_value_as_bytes flag sender msg field exp).2 ≠ .ok ()) ∧
    (containsSub googleapis_marker (utf8Encode exp) = false →
      ∀ flag sdk resp field,
        (receive_rpc_response_as_bytes flag sdk resp field exp).2 ≠ .ok ()) := by
  refine ⟨gsa_error_of_absent a1 e1, ?_, ?_, ?_, ?_, ?_⟩
  · intro h
    unfold googleapis_suffix_assert
    rcases hs1 : specSuffixAfter googleapis_marker a1 with _ | suf
    · have hs2 : specSuffixAfter googleapis_marker a2 = none := by rw [← h, hs1]
      rw [(split1_eq_none_iff a1).mpr hs1, (split1_eq_none_iff a2).mpr hs2]
    · have hs2 : specSuffixAfter googleapis_marker a2 = some suf := by rw [← h, hs1]
      rw [split1_eq_of_some a1 suf hs1, split1_eq_of_some a2 suf hs2]
  · intro h
    unfold googleapis_suffix_assert
    rcases hs1 : specSuffixAfter googleapis_marker e1 with _ | suf
    · have hs2 : specSuffixAfter googleapis_marker e2 = none := by rw [← h, hs1]
      rw [(split1_eq_none_iff e1).mpr hs1, (split1_eq_none_iff e2).mpr hs2]
    · have hs2 : specSuffixAfter googleapis_marker e2 = some suf := by rw [← h, hs1]
      rw [split1_eq_of_some e1 suf hs1, split1_eq_of_some e2 suf hs2]
  · intro sa se hsa hse hca hce
    have h1 : (pySplit googleapis_marker a1)[1]? = some sa := by
      rw [split1_eq_of_some a1 sa hsa, googleapis_marker_cons]
      show (splitOnSubAux gmHead gmTail sa).head? = some sa
      rw [(split_structure gmHead gmTail sa).1
        ((specSuffixAfter_none_iff gmHead gmTail sa).mpr
          (by rw [googleapis_marker_cons] at hca; exact hca))]
      rfl
    have h2 : (pySplit googleapis_marker e1)[1]? = some se := by
      rw [split1_eq_of_some e1 se hse, googleapis_marker_cons]
      show (splitOnSubAux gmHead gmTail se).head? = some se
      rw [(split_structure gmHead gmTail se).1
        ((specSuffixAfter_none_iff gmHead gmTail se).mpr
          (by rw [googleapis_marker_cons] at hce; exact hce))]
      rfl
    unfold googleapis_suffix_assert
    rw [h1, h2]
    show (if sa = se then (Except.ok () : Except PyErr Unit)
        else .error .assertionError) = .ok () ↔ sa = se
    constructor
    · intro hok
      by_contra hne
      rw [if_neg hne] at hok
      cases hok
    · intro heq
      rw [if_pos heq]
  · intro h flag sender msg field
    rcases receive_value_shape flag sender msg field exp with ⟨v, r, hv⟩ | ⟨err, hv⟩
    · rw [hv]; exact finalCompare_ne_ok v r _ h
    · rw [hv]; intro hh; cases hh
  · intro h flag sdk resp field
    rcases receive_rpc_shape flag sdk resp field exp with ⟨r, hv⟩ | ⟨err, hv⟩
    · rw [hv]; exact rpcFinalize_ne_ok r _ h
    · rw [hv]; intro hh; cases hh

/-- Witness for C1: with the marker occurring once on each side, prefixes
differ but the assertion compares only the suffixes and passes. -/
theorem C1_marker_suffix_comparison_witness :
    googleapis_suffix_assert (googleapis_marker ++ [65])
      ([66] ++ googleapis_marker ++ [65]) = .ok () :=
  ((C1_marker_suffix_comparison (googleapis_marker ++ [65]) []
      ([66] ++ googleapis_marker ++ [65]) [] (str "")).2.2.2.1 [65] [65]
    (by decide) (by decide) (by decide) (by decide)).mpr rfl

/-! ### Claim C4: the flatten/unflatten round trip

Proof-side definitions: `pureE` lists the flattened entries of a nested
dict as a pure concatenation, `chainsE` lists its leaves as key chains,
`joinChain` joins a chain with dots, and `goodE` is the hypothesis of the
amended round-trip claim (keys pairwise distinct per level, non-empty and
dot-free; nested mappings non-empty). -/

mutual

/-- Flattened entries of a nested dict, as a plain concatenation. -/
def pureE : List (Str × JVal) → Str → DictE
  | [], _ => []
  | (k, v) :: rest, parent => pureV (pyJoinKey parent k) v ++ pureE rest parent

/-- Flattened entries contributed by one value. -/
def pureV : Str → JVal → DictE
  | key, .jobj sub => pureE sub key
  | key, v => [(key, v)]

end

mutual

/-- Leaf chains of a nested dict: each leaf with its path of keys. -/
def chainsE : List (Str × JVal) → List (List Str × JVal)
  | [] => []
  | (k, v) :: rest => chainsV k v ++ chainsE rest

/-- Leaf chains contributed by one value. -/
def chainsV : Str → JVal → List (List Str × JVal)
  | k, .jobj sub => (chainsE sub).map (fun cv => (k :: cv.1, cv.2))
  | k, v => [([k], v)]

end

mutual

/-- The round-trip hypothesis on a nested dict: keys pairwise distinct at
each level, non-empty, dot-free, and values recursively good. -/
def goodE : List (Str × JVal) → Bool
  | [] => true
  | (k, v) :: rest =>
    decide (k ≠ []) && k.all (fun c => decide (c ≠ '.')) &&
    !decide (k ∈ rest.map Prod.fst) && goodV v && goodE rest

/-- Values: a nested mapping must be non-empty and recursively good. -/
def goodV : JVal → Bool
  | .jobj es => decide (es ≠ []) && goodE es
  | _ => true

end

/-- Joins a key chain with dots. -/
def joinChain : List Str → Str
  | [] => []
  | [k] => k
  | k :: rest => k ++ '.' :: joinChain rest

/-- Extends a chain by the parent key unless the parent is empty (the
falsy check of `pyJoinKey`). -/
def extChain (parent : Str) (cs : List Str) : List Str :=
  if parent = [] then cs else parent :: cs

/-- Sequential `d[k] = v` assignments, as `flatten_dict` performs them. -/
def setFold (acc : DictE) (entries : DictE) : DictE :=
  entries.foldl (fun a kv => setKey a kv.1 kv.2) acc

/-- Sequential `insertPath` calls on split key chains, as `unflatten_dict`
performs them. -/
def insertChains (css : List (List Str × JVal)) (acc : DictE) : Except PyErr DictE :=
  css.foldlM (fun a cv => insertPath a cv.1 cv.2) acc

/-! Association-list lemmas. -/

theorem assocLookup_append (d1 d2 : DictE) (k : Str) :
    assocLookup (d1 ++ d2) k
      = match assocLookup d1 k with
        | some v => some v
        | none => assocLookup d2 k := by
  induction d1 with
  | nil => rfl
  | cons kv rest ih =>
    obtain ⟨k', v⟩ := kv
    by_cases h : k' = k
    · simp [assocLookup, h]
    · simp [assocLookup, h, ih]

theorem setKey_fresh (d : DictE) (k : Str) (v : JVal) (h : assocLookup d k = none) :
    setKey d k v = d ++ [(k, v)] := by
  induction d with
  | nil => rfl
  | cons kv rest ih =>
    obtain ⟨k', v'⟩ := kv
    by_cases hk : k' = k
    · simp [assocLookup, hk] at h
    · simp only [assocLookup, if_neg hk] at h
      simp [setKey, hk, ih h]

theorem setKey_same (d : DictE) (k : Str) (v : JVal) (h : assocLookup d k = some v) :
    setKey d k v = d := by
  induction d with
  | nil => simp [assocLookup] at h
  | cons kv rest ih =>
    obtain ⟨k', v'⟩ := kv
    by_cases hk : k' = k
    · simp only [assocLookup, if_pos hk] at h
      cases h
      simp [setKey, hk]
    · simp only [assocLookup, if_neg hk] at h
      simp [setKey, hk, ih h]

theorem lookup_setKey_self (d : DictE) (k : Str) (v : JVal) :
    assocLookup (setKey d k v) k = some v := by
  induction d with
  | nil => simp [setKey, assocLookup]
  | cons kv rest ih =>
    obtain ⟨k', v'⟩ := kv
    by_cases hk : k' = k
    · simp [setKey, assocLookup, hk]
    · simp [setKey, assocLookup, hk, ih]

theorem setKey_setKey (d : DictE) (k : Str) (x y : JVal) :
    setKey (setKey d k x) k y = setKey d k y := by
  induction d with
  | nil => simp [setKey]
  | cons kv rest ih =>
    obtain ⟨k', v'⟩ := kv
    by_cases hk : k' = k
    · simp [setKey, hk]
    · simp [setKey, hk, ih]

theorem setKey_append_last (d : DictE) (k : Str) (x y : JVal)
    (h : assocLookup d k = none) :
    setKey (d ++ [(k, x)]) k y = d ++ [(k, y)] := by
  induction d with
  | nil => simp [setKey]
  | cons kv rest ih =>
    obtain ⟨k', v'⟩ := kv
    by_cases hk : k' = k
    · simp [assocLookup, hk] at h
    · simp only [assocLookup, if_neg hk] at h
      simp [setKey, hk, ih h]

/-! The threaded flatten loop is the pure entry list applied with
sequential dict assignments. -/

mutual

theorem flattenEntries_eq : ∀ (es : List (Str × JVal)) (parent : Str) (acc : DictE),
    flattenEntries es parent acc = setFold acc (pureE es parent)
  | [], parent, acc => rfl
  | (k, v) :: rest, parent, acc => by
    show flattenEntries rest parent (flattenVal v (pyJoinKey parent k) acc)
        = setFold acc (pureV (pyJoinKey parent k) v ++ pureE rest parent)
    rw [flattenVal_eq v (pyJoinKey parent k) acc,
      flattenEntries_eq rest parent (setFold acc (pureV (pyJoinKey parent k) v))]
    simp [setFold, List.foldl_append]

theorem flattenVal_eq : ∀ (v : JVal) (key : Str) (acc : DictE),
    flattenVal v key acc = setFold acc (pureV key v)
  | .jobj sub, key, acc => by
    show flattenEntries sub key acc = setFold acc (pureE sub key)
    exact flattenEntries_eq sub key acc
  | .jstr s, key, acc => rfl
  | .jint n, key, acc => rfl
  | .jbool b, key, acc => rfl
  | .jnull, key, acc => rfl
  | .jfloatLit s, key, acc => rfl
  | .jbytes bs, key, acc => rfl

end

/-- Sequential assignments of fresh, pairwise-distinct keys append. -/
theorem setFold_append (entries : DictE) : ∀ acc : DictE,
    (∀ k ∈ entries.map Prod.fst, assocLookup acc k = none) →
    List.Nodup (entries.map Prod.fst) →
    setFold acc entries = acc ++ entries := by
  induction entries with
  | nil => intro acc _ _; simp [setFold]
  | cons kv rest ih =>
    intro acc hd hn
    obtain ⟨k, v⟩ := kv
    have hk : assocLookup acc k = none :=
      hd k (by rw [List.map_cons]; exact List.mem_cons_self _ _)
    show setFold (setKey acc k v) rest = acc ++ (k, v) :: rest
    rw [setKey_fresh acc k v hk]
    simp only [List.map_cons, List.nodup_cons] at hn
    have hd' : ∀ k' ∈ rest.map Prod.fst, assocLookup (acc ++ [(k, v)]) k' = none := by
      intro k' hk'
      have hm : k' ∈ List.map Prod.fst ((k, v) :: rest) := by
        rw [List.map_cons]; exact List.mem_cons_of_mem _ hk'
      rw [assocLookup_append, hd k' hm]
      have hne : k ≠ k' := fun he => hn.1 (he ▸ hk')
      simp [assocLookup, hne]
    rw [ih (acc ++ [(k, v)]) hd' hn.2]
    simp

/-! Splitting on dots inverts joining dot-free keys. -/

theorem splitDot_no_dot (k : Str) (h : ∀ c ∈ k, c ≠ '.') :
    splitOnSubAux '.' [] k = [k] := by
  induction k with
  | nil => rfl
  | cons a rest ih =>
    have ha : a ≠ '.' := h a (List.mem_cons_self _ _)
    have hp : (['.'].isPrefixOf (a :: rest) : Bool) = false := by
      simp [List.isPrefixOf, Ne.symm ha]
    rw [splitOnSubAux_cons]
    simp only [hp, Bool.false_eq_true, if_false]
    rw [ih (fun c hc => h c (List.mem_cons_of_mem _ hc))]

theorem splitDot_glue (k : Str) (t : Str) (h : ∀ c ∈ k, c ≠ '.') :
    splitOnSubAux '.' [] (k ++ '.' :: t) = k :: splitOnSubAux '.' [] t := by
  induction k with
  | nil =>
    rw [List.nil_append, splitOnSubAux_cons]
    simp [List.isPrefixOf]
  | cons a rest ih =>
    have ha : a ≠ '.' := h a (List.mem_cons_self _ _)
    have hp : (['.'].isPrefixOf (a :: (rest ++ '.' :: t)) : Bool) = false := by
      simp [List.isPrefixOf, Ne.symm ha]
    rw [List.cons_append, splitOnSubAux_cons]
    simp only [hp, Bool.false_eq_true, if_false]
    rw [ih (fun c hc => h c (List.mem_cons_of_mem _ hc))]

theorem splitDot_joinChain (cs : List Str) (hne : cs ≠ [])
    (h : ∀ key ∈ cs, ∀ c ∈ key, c ≠ '.') :
    splitOnSubAux '.' [] (joinChain cs) = cs := by
  induction cs with
  | nil => exact absurd rfl hne
  | cons k cs' ih =>
    cases cs' with
    | nil =>
      show splitOnSubAux '.' [] (joinChain [k]) = [k]
      exact splitDot_no_dot k (h k (List.mem_cons_self _ _))
    | cons c2 cs'' =>
      show splitOnSubAux '.' [] (k ++ '.' :: joinChain (c2 :: cs'')) = k :: c2 :: cs''
      rw [splitDot_glue k _ (h k (List.mem_cons_self _ _)),
        ih (by simp) (fun key hk => h key (List.mem_cons_of_mem _ hk))]

theorem joinChain_glue (p k : Str) (cs : List Str) :
    joinChain ((p ++ '.' :: k) :: cs) = p ++ '.' :: joinChain (k :: cs) := by
  cases cs with
  | nil => rfl
  | cons c cs' => simp [joinChain, List.append_assoc]

/-! Decomposition of the goodness predicate. -/

theorem goodE_cons (k : Str) (v : JVal) (rest : List (Str × JVal))
    (hg : goodE ((k, v) :: rest) = true) :
    k ≠ [] ∧ (∀ c ∈ k, c ≠ '.') ∧ k ∉ rest.map Prod.fst ∧ goodV v = true ∧
      goodE rest = true := by
  simp only [goodE, Bool.and_eq_true, decide_eq_true_eq, List.all_eq_true,
    Bool.not_eq_true', decide_eq_false_iff_not] at hg
  exact ⟨hg.1.1.1.1, hg.1.1.1.2, hg.1.1.2, hg.1.2, hg.2⟩

theorem goodV_jobj (sub : List (Str × JVal)) (h : goodV (.jobj sub) = true) :
    sub ≠ [] ∧ goodE sub = true := by
  simp only [goodV, Bool.and_eq_true, decide_eq_true_eq] at h
  exact h

/-! The pure flattened entries are the joined leaf chains. -/

mutual

theorem pureE_eq : ∀ (es : List (Str × JVal)) (parent : Str), goodE es = true →
    pureE es parent = (chainsE es).map (fun cv => (joinChain (extChain parent cv.1), cv.2))
  | [], _, _ => rfl
  | (k, v) :: rest, parent, hg => by
    obtain ⟨hk, _, _, hgv, hgrest⟩ := goodE_cons k v rest hg
    show pureV (pyJoinKey parent k) v ++ pureE rest parent = _
    rw [pureV_eq k v parent hk hgv, pureE_eq rest parent hgrest]
    show _ = (chainsV k v ++ chainsE rest).map _
    rw [List.map_append]

theorem pureV_eq : ∀ (k : Str) (v : JVal) (parent : Str), k ≠ [] → goodV v = true →
    pureV (pyJoinKey parent k) v
      = (chainsV k v).map (fun cv => (joinChain (extChain parent cv.1), cv.2))
  | k, .jobj sub, parent, hk, hgv => by
    obtain ⟨_, hgsub⟩ := goodV_jobj sub hgv
    show pureE sub (pyJoinKey parent k) = _
    rw [pureE_eq sub (pyJoinKey parent k) hgsub]
    show _ = ((chainsE sub).map (fun cv => (k :: cv.1, cv.2))).map _
    rw [List.map_map]
    refine List.map_congr_left ?_
    intro cv _
    show (joinChain (extChain (pyJoinKey parent k) cv.1), cv.2)
        = (joinChain (extChain parent (k :: cv.1)), cv.2)
    by_cases hp : parent = []
    · subst hp
      simp [pyJoinKey, extChain, hk]
    · have hjk : pyJoinKey parent k = parent ++ '.' :: k := by
        simp [pyJoinKey, hp, str, List.append_assoc]
      have hne : parent ++ '.' :: k ≠ [] := by simp
      simp only [extChain, hjk, if_neg hp, if_neg hne, joinChain_glue]
      simp [joinChain]
  | k, .jstr s, parent, hk, _ => by
    show [(pyJoinKey parent k, JVal.jstr s)] = _
    by_cases hp : parent = []
    · subst hp
      simp [chainsV, pyJoinKey, extChain, joinChain, hk]
    · simp [chainsV, pyJoinKey, extChain, joinChain, hp, str, List.append_assoc]
  | k, .jint n, parent, hk, _ => by
    show [(pyJoinKey parent k, JVal.jint n)] = _
    by_cases hp : parent = []
    · subst hp
      simp [chainsV, pyJoinKey, extChain, joinChain, hk]
    · simp [chainsV, pyJoinKey, extChain, joinChain, hp, str, List.append_assoc]
  | k, .jbool b, parent, hk, _ => by
    show [(pyJoinKey parent k, JVal.jbool b)] = _
    by_cases hp : parent = []
    · subst hp
      simp [chainsV, pyJoinKey, extChain, joinChain, hk]
    · simp [chainsV, pyJoinKey, extChain, joinChain, hp, str, List.append_assoc]
  | k, .jnull, parent, hk, _ => by
    show [(pyJoinKey parent k, JVal.jnull)] = _
    by_cases hp : parent = []
    · subst hp
      simp [chainsV, pyJoinKey, extChain, joinChain, hk]
    · simp [chainsV, pyJoinKey, extChain, joinChain, hp, str, List.append_assoc]
  | k, .jfloatLit s, parent, hk, _ => by
    show [(pyJoinKey parent k, JVal.jfloatLit s)] = _
    by_cases hp : parent = []
    · subst hp
      simp [chainsV, pyJoinKey, extChain, joinChain, hk]
    · simp [chainsV, pyJoinKey, extChain, joinChain, hp, str, List.append_assoc]
  | k, .jbytes bs, parent, hk, _ => by
    show [(pyJoinKey parent k, JVal.jbytes bs)] = _
    by_cases hp : parent = []
    · subst hp
      simp [chainsV, pyJoinKey, extChain, joinChain, hk]
    · simp [chainsV, pyJoinKey, extChain, joinChain, hp, str, List.append_assoc]

end

/-! Structure of the leaf chains: heads, goodness of parts, distinctness. -/

theorem chainsV_head (k : Str) (v : JVal) :
    ∀ cv ∈ chainsV k v, ∃ t, cv.1 = k :: t := by
  intro cv hm
  cases v with
  | jobj sub =>
    simp only [chainsV, List.mem_map] at hm
    obtain ⟨cv', _, rfl⟩ := hm
    exact ⟨cv'.1, rfl⟩
  | jstr s => simp only [chainsV, List.mem_singleton] at hm; exact ⟨[], by rw [hm]⟩
  | jint n => simp only [chainsV, List.mem_singleton] at hm; exact ⟨[], by rw [hm]⟩
  | jbool b => simp only [chainsV, List.mem_singleton] at hm; exact ⟨[], by rw [hm]⟩
  | jnull => simp only [chainsV, List.mem_singleton] at hm; exact ⟨[], by rw [hm]⟩
  | jfloatLit s => simp only [chainsV, List.mem_singleton] at hm; exact ⟨[], by rw [hm]⟩
  | jbytes bs => simp only [chainsV, List.mem_singleton] at hm; exact ⟨[], by rw [hm]⟩

theorem chainsE_head : ∀ (es : List (Str × JVal)), ∀ cv ∈ chainsE es,
    ∃ k t, cv.1 = k :: t ∧ k ∈ es.map Prod.fst := by
  intro es
  induction es with
  | nil => intro cv hm; simp [chainsE] at hm
  | cons kv rest ih =>
    obtain ⟨k, v⟩ := kv
    intro cv hm
    rw [chainsE] at hm
    rcases List.mem_append.mp hm with hm | hm
    · obtain ⟨t, ht⟩ := chainsV_head k v cv hm
      exact ⟨k, t, ht, by rw [List.map_cons]; exact List.mem_cons_self _ _⟩
    · obtain ⟨k', t, ht, hk'⟩ := ih cv hm
      exact ⟨k', t, ht, by rw [List.map_cons]; exact List.mem_cons_of_mem _ hk'⟩

mutual

theorem chainsE_parts : ∀ (es : List (Str × JVal)), goodE es = true →
    ∀ cv ∈ chainsE es, cv.1 ≠ [] ∧ ∀ key ∈ cv.1, key ≠ [] ∧ (∀ c ∈ key, c ≠ '.')
  | [], _ => by intro cv hm; simp [chainsE] at hm
  | (k, v) :: rest, hg => by
    obtain ⟨hk, hkd, _, hgv, hgrest⟩ := goodE_cons k v rest hg
    intro cv hm
    rw [chainsE] at hm
    rcases List.mem_append.mp hm with hm | hm
    · exact chainsV_parts k v hk hkd hgv cv hm
    · exact chainsE_parts rest hgrest cv hm

theorem chainsV_parts : ∀ (k : Str) (v : JVal), k ≠ [] → (∀ c ∈ k, c ≠ '.') →
    goodV v = true →
    ∀ cv ∈ chainsV k v, cv.1 ≠ [] ∧ ∀ key ∈ cv.1, key ≠ [] ∧ (∀ c ∈ key, c ≠ '.')
  | k, .jobj sub, hk, hkd, hgv => by
    obtain ⟨_, hgsub⟩ := goodV_jobj sub hgv
    intro cv hm
    simp only [chainsV, List.mem_map] at hm
    obtain ⟨cv', hcv', rfl⟩ := hm
    obtain ⟨_, hparts⟩ := chainsE_parts sub hgsub cv' hcv'
    refine ⟨by simp, ?_⟩
    intro key hkey
    rcases List.mem_cons.mp hkey with rfl | hkey
    · exact ⟨hk, hkd⟩
    · exact hparts key hkey
  | k, .jstr s, hk, hkd, _ => by
    intro cv hm
    simp only [chainsV, List.mem_singleton] at hm
    subst hm
    exact ⟨by simp, fun key hkey => by
      rcases List.mem_singleton.mp hkey with rfl
      exact ⟨hk, hkd⟩⟩
  | k, .jint n, hk, hkd, _ => by
    intro cv hm
    simp only [chainsV, List.mem_singleton] at hm
    subst hm
    exact ⟨by simp, fun key hkey => by
      rcases List.mem_singleton.mp hkey with rfl
      exact ⟨hk, hkd⟩⟩
  | k, .jbool b, hk, hkd, _ => by
    intro cv hm
    simp only [chainsV, List.mem_singleton] at hm
    subst hm
    exact ⟨by simp, fun key hkey => by
      rcases List.mem_singleton.mp hkey with rfl
      exact ⟨hk, hkd⟩⟩
  | k, .jnull, hk, hkd, _ => by
    intro cv hm
    simp only [chainsV, List.mem_singleton] at hm
    subst hm
    exact ⟨by simp, fun key hkey => by
      rcases List.mem_singleton.mp hkey with rfl
      exact ⟨hk, hkd⟩⟩
  | k, .jfloatLit s, hk, hkd, _ => by
    intro cv hm
    simp only [chainsV, List.mem_singleton] at hm
    subst hm
    exact ⟨by simp, fun key hkey => by
      rcases List.mem_singleton.mp hkey with rfl
      exact ⟨hk, hkd⟩⟩
  | k, .jbytes bs, hk, hkd, _ => by
    intro cv hm
    simp only [chainsV, List.mem_singleton] at hm
    subst hm
    exact ⟨by simp, fun key hkey => by
      rcases List.mem_singleton.mp hkey with rfl
      exact ⟨hk, hkd⟩⟩

end

mutual

theorem chainsE_fst_nodup : ∀ (es : List (Str × JVal)), goodE es = true →
    List.Nodup ((chainsE es).map Prod.fst)
  | [], _ => List.nodup_nil
  | (k, v) :: rest, hg => by
    obtain ⟨_, _, hknotin, hgv, hgrest⟩ := goodE_cons k v rest hg
    rw [chainsE, List.map_append]
    refine List.Nodup.append (chainsV_fst_nodup k v hgv)
      (chainsE_fst_nodup rest hgrest) ?_
    intro c hc1 hc2
    simp only [List.mem_map] at hc1 hc2
    obtain ⟨cv1, hcv1, rfl⟩ := hc1
    obtain ⟨cv2, hcv2, heq⟩ := hc2
    obtain ⟨t1, ht1⟩ := chainsV_head k v cv1 hcv1
    obtain ⟨k2, t2, ht2, hk2⟩ := chainsE_head rest cv2 hcv2
    rw [ht1] at heq
    rw [ht2] at heq
    cases heq
    exact hknotin hk2

theorem chainsV_fst_nodup : ∀ (k : Str) (v : JVal), goodV v = true →
    List.Nodup ((chainsV k v).map Prod.fst)
  | k, .jobj sub, hgv => by
    obtain ⟨_, hgsub⟩ := goodV_jobj sub hgv
    have hmm : (((chainsE sub).map (fun cv : List Str × JVal => (k :: cv.1, cv.2))).map
          Prod.fst)
        = ((chainsE sub).map Prod.fst).map (fun c => k :: c) := by
      rw [List.map_map, List.map_map]; rfl
    show List.Nodup (((chainsE sub).map (fun cv => (k :: cv.1, cv.2))).map Prod.fst)
    rw [hmm]
    exact List.Nodup.map List.cons_injective (chainsE_fst_nodup sub hgsub)
  | k, .jstr s, _ => by simp [chainsV]
  | k, .jint n, _ => by simp [chainsV]
  | k, .jbool b, _ => by simp [chainsV]
  | k, .jnull, _ => by simp [chainsV]
  | k, .jfloatLit s, _ => by simp [chainsV]
  | k, .jbytes bs, _ => by simp [chainsV]

end

/-- Joined paths of a good tree are pairwise distinct. -/
theorem paths_nodup (es : List (Str × JVal)) (hg : goodE es = true) :
    List.Nodup ((chainsE es).map (fun cv => joinChain cv.1)) := by
  have hmm : ((chainsE es).map fun cv => joinChain cv.1)
      = ((chainsE es).map Prod.fst).map joinChain := by
    rw [List.map_map]; rfl
  rw [hmm]
  refine List.Nodup.map_on ?_ (chainsE_fst_nodup es hg)
  intro c1 hc1 c2 hc2 hj
  simp only [List.mem_map] at hc1 hc2
  obtain ⟨cv1, hcv1, rfl⟩ := hc1
  obtain ⟨cv2, hcv2, rfl⟩ := hc2
  obtain ⟨hne1, hparts1⟩ := chainsE_parts es hg cv1 hcv1
  obtain ⟨hne2, hparts2⟩ := chainsE_parts es hg cv2 hcv2
  have h1 := splitDot_joinChain cv1.1 hne1 (fun key hk => (hparts1 key hk).2)
  have h2 := splitDot_joinChain cv2.1 hne2 (fun key hk => (hparts2 key hk).2)
  rw [← h1, ← h2, hj]

/-! Rebuilding a nested dict by inserting its leaf chains in order. -/

theorem insertChains_nil (acc : DictE) : insertChains [] acc = .ok acc := rfl

theorem insertChains_cons (cv : List Str × JVal) (css : List (List Str × JVal))
    (acc : DictE) :
    insertChains (cv :: css) acc
      = insertPath acc cv.1 cv.2 >>= fun a => insertChains css a := rfl

theorem insertChains_append (l1 l2 : List (List Str × JVal)) : ∀ acc : DictE,
    insertChains (l1 ++ l2) acc
      = insertChains l1 acc >>= fun a => insertChains l2 a := by
  induction l1 with
  | nil => intro acc; rfl
  | cons cv l1 ih =>
    intro acc
    rw [List.cons_append, insertChains_cons, insertChains_cons]
    cases insertPath acc cv.1 cv.2 with
    | error e => rfl
    | ok a => exact ih a

theorem insertPath_cons_cons (d : DictE) (p1 p2 : Str) (ps : List Str) (v : JVal) :
    insertPath d (p1 :: p2 :: ps) v
      = match assocLookup d p1 with
        | none =>
          match insertPath [] (p2 :: ps) v with
          | .ok sub => .ok (setKey d p1 (.jobj sub))
          | .error e => .error e
        | some (.jobj sub) =>
          match insertPath sub (p2 :: ps) v with
          | .ok sub' => .ok (setKey d p1 (.jobj sub'))
          | .error e => .error e
        | some _ => .error .typeError := rfl

theorem insertPath_descend (d : DictE) (p1 : Str) (ps : List Str) (hps : ps ≠ [])
    (v : JVal) (t : DictE) (hl : assocLookup d p1 = some (.jobj t)) :
    insertPath d (p1 :: ps) v
      = match insertPath t ps v with
        | .ok sub' => .ok (setKey d p1 (.jobj sub'))
        | .error e => .error e := by
  obtain ⟨p2, ps', rfl⟩ := List.exists_cons_of_ne_nil hps
  rw [insertPath_cons_cons, hl]

theorem insertPath_create (d : DictE) (p1 : Str) (ps : List Str) (hps : ps ≠ [])
    (v : JVal) (hl : assocLookup d p1 = none) :
    insertPath d (p1 :: ps) v
      = match insertPath [] ps v with
        | .ok sub => .ok (setKey d p1 (.jobj sub))
        | .error e => .error e := by
  obtain ⟨p2, ps', rfl⟩ := List.exists_cons_of_ne_nil hps
  rw [insertPath_cons_cons, hl]

theorem insertChains_keyed (k : Str) : ∀ (css : List (List Str × JVal)) (acc t : DictE),
    assocLookup acc k = some (.jobj t) → (∀ cv ∈ css, cv.1 ≠ []) →
    insertChains (css.map (fun cv => (k :: cv.1, cv.2))) acc
      = match insertChains css t with
        | .ok t' => .ok (setKey acc k (.jobj t'))
        | .error e => .error e := by
  intro css
  induction css with
  | nil =>
    intro acc t hl _
    show (Except.ok acc : Except PyErr DictE) = .ok (setKey acc k (.jobj t))
    rw [setKey_same acc k (.jobj t) hl]
  | cons cv css ih =>
    intro acc t hl hne
    have hcv : cv.1 ≠ [] := hne cv (List.mem_cons_self _ _)
    rw [List.map_cons, insertChains_cons, insertChains_cons]
    show (insertPath acc (k :: cv.1) cv.2 >>= fun a =>
        insertChains (css.map (fun cv => (k :: cv.1, cv.2))) a) = _
    rw [insertPath_descend acc k cv.1 hcv cv.2 t hl]
    cases hins : insertPath t cv.1 cv.2 with
    | error e => rfl
    | ok t1 =>
      show insertChains (css.map (fun cv => (k :: cv.1, cv.2))) (setKey acc k (.jobj t1))
          = _
      rw [ih (setKey acc k (.jobj t1)) t1 (lookup_setKey_self acc k (.jobj t1))
        (fun cv' h => hne cv' (List.mem_cons_of_mem _ h))]
      rw [except_bind_ok]
      cases insertChains css t1 with
      | ok t' =>
        show Except.ok (setKey (setKey acc k (.jobj t1)) k (.jobj t')) = _
        rw [setKey_setKey]
      | error e => rfl

theorem insertChains_keyed_fresh (k : Str) (cv0 : List Str × JVal)
    (css : List (List Str × JVal)) (acc : DictE)
    (hl : assocLookup acc k = none) (h0 : cv0.1 ≠ [])
    (hne : ∀ cv ∈ css, cv.1 ≠ []) :
    insertChains ((cv0 :: css).map (fun cv => (k :: cv.1, cv.2))) acc
      = match insertChains (cv0 :: css) [] with
        | .ok t' => .ok (acc ++ [(k, .jobj t')])
        | .error e => .error e := by
  rw [List.map_cons, insertChains_cons, insertChains_cons]
  show (insertPath acc (k :: cv0.1) cv0.2 >>= fun a =>
      insertChains (css.map (fun cv => (k :: cv.1, cv.2))) a) = _
  rw [insertPath_create acc k cv0.1 h0 cv0.2 hl]
  cases hins : insertPath [] cv0.1 cv0.2 with
  | error e => rfl
  | ok sub =>
    show insertChains (css.map (fun cv => (k :: cv.1, cv.2))) (setKey acc k (.jobj sub))
        = _
    have hlook : assocLookup (setKey acc k (.jobj sub)) k = some (.jobj sub) :=
      lookup_setKey_self acc k (.jobj sub)
    rw [insertChains_keyed k css (setKey acc k (.jobj sub)) sub hlook hne]
    rw [setKey_fresh acc k (.jobj sub) hl]
    rw [except_bind_ok]
    cases insertChains css sub with
    | ok t' =>
      show Except.ok (setKey (acc ++ [(k, .jobj sub)]) k (.jobj t')) = _
      rw [setKey_append_last acc k (.jobj sub) (.jobj t') hl]
    | error e => rfl

mutual

theorem chainsE_ne : ∀ (es : List (Str × JVal)), es ≠ [] → goodE es = true →
    chainsE es ≠ []
  | [], h, _ => absurd rfl h
  | (k, v) :: rest, _, hg => by
    obtain ⟨_, _, _, hgv, _⟩ := goodE_cons k v rest hg
    rw [chainsE]
    intro hcon
    exact chainsV_ne k v hgv (List.append_eq_nil.mp hcon).1

theorem chainsV_ne : ∀ (k : Str) (v : JVal), goodV v = true → chainsV k v ≠ []
  | k, .jobj sub, hgv => by
    obtain ⟨hne, hg⟩ := goodV_jobj sub hgv
    rw [chainsV]
    simp only [ne_eq, List.map_eq_nil_iff]
    exact chainsE_ne sub hne hg
  | k, .jstr s, _ => by simp [chainsV]
  | k, .jint n, _ => by simp [chainsV]
  | k, .jbool b, _ => by simp [chainsV]
  | k, .jnull, _ => by simp [chainsV]
  | k, .jfloatLit s, _ => by simp [chainsV]
  | k, .jbytes bs, _ => by simp [chainsV]

end

mutual

theorem insertChains_chainsE : ∀ (es : List (Str × JVal)) (acc : DictE), goodE es = true →
    (∀ k ∈ es.map Prod.fst, assocLookup acc k = none) →
    insertChains (chainsE es) acc = .ok (acc ++ es)
  | [], acc, _, _ => by
    show (Except.ok acc : Except PyErr DictE) = .ok (acc ++ [])
    rw [List.append_nil]
  | (k, v) :: rest, acc, hg, hd => by
    obtain ⟨hk, hkd, hknotin, hgv, hgrest⟩ := goodE_cons k v rest hg
    have hlk : assocLookup acc k = none :=
      hd k (by rw [List.map_cons]; exact List.mem_cons_self _ _)
    rw [chainsE, insertChains_append, insertChains_chainsV k v acc hgv hlk,
      except_bind_ok]
    have hd' : ∀ k' ∈ rest.map Prod.fst, assocLookup (acc ++ [(k, v)]) k' = none := by
      intro k' hk'
      have hm : k' ∈ List.map Prod.fst ((k, v) :: rest) := by
        rw [List.map_cons]; exact List.mem_cons_of_mem _ hk'
      rw [assocLookup_append, hd k' hm]
      have hne : k ≠ k' := fun he => hknotin (he ▸ hk')
      simp [assocLookup, hne]
    rw [insertChains_chainsE rest (acc ++ [(k, v)]) hgrest hd']
    simp

theorem insertChains_chainsV : ∀ (k : Str) (v : JVal) (acc : DictE), goodV v = true →
    assocLookup acc k = none →
    insertChains (chainsV k v) acc = .ok (acc ++ [(k, v)])
  | k, .jobj sub, acc, hgv, hl => by
    obtain ⟨hsubne, hgsub⟩ := goodV_jobj sub hgv
    have hch : chainsE sub ≠ [] := chainsE_ne sub hsubne hgsub
    obtain ⟨cv0, css, hcs⟩ := List.exists_cons_of_ne_nil hch
    show insertChains ((chainsE sub).map (fun cv => (k :: cv.1, cv.2))) acc = _
    rw [hcs, insertChains_keyed_fresh k cv0 css acc hl
      (by
        have := (chainsE_parts sub hgsub cv0 (by rw [hcs]; exact List.mem_cons_self _ _)).1
        exact this)
      (fun cv h => (chainsE_parts sub hgsub cv
        (by rw [hcs]; exact List.mem_cons_of_mem _ h)).1),
      ← hcs,
      insertChains_chainsE sub [] hgsub (fun k' _ => rfl)]
    rfl
  | k, .jstr s, acc, _, hl => by
    show (insertPath acc [k] (.jstr s) >>= fun a => insertChains [] a) = _
    show (Except.ok (setKey acc k (.jstr s)) >>= fun a => insertChains [] a) = _
    rw [except_bind_ok, insertChains_nil, setKey_fresh acc k _ hl]
  | k, .jint n, acc, _, hl => by
    show (Except.ok (setKey acc k (.jint n)) >>= fun a => insertChains [] a) = _
    rw [except_bind_ok, insertChains_nil, setKey_fresh acc k _ hl]
  | k, .jbool b, acc, _, hl => by
    show (Except.ok (setKey acc k (.jbool b)) >>= fun a => insertChains [] a) = _
    rw [except_bind_ok, insertChains_nil, setKey_fresh acc k _ hl]
  | k, .jnull, acc, _, hl => by
    show (Except.ok (setKey acc k .jnull) >>= fun a => insertChains [] a) = _
    rw [except_bind_ok, insertChains_nil, setKey_fresh acc k _ hl]
  | k, .jfloatLit s, acc, _, hl => by
    show (Except.ok (setKey acc k (.jfloatLit s)) >>= fun a => insertChains [] a) = _
    rw [except_bind_ok, insertChains_nil, setKey_fresh acc k _ hl]
  | k, .jbytes bs, acc, _, hl => by
    show (Except.ok (setKey acc k (.jbytes bs)) >>= fun a => insertChains [] a) = _
    rw [except_bind_ok, insertChains_nil, setKey_fresh acc k _ hl]

end

/-- Unflattening the joined chains performs exactly the chain insertions. -/
theorem unflatten_mapped : ∀ (css : List (List Str × JVal)) (acc : DictE),
    (∀ cv ∈ css, cv.1 ≠ [] ∧ ∀ key ∈ cv.1, ∀ c ∈ key, c ≠ '.') →
    (css.map (fun cv => (joinChain cv.1, cv.2))).foldlM
        (fun a (kv : Str × JVal) => insertPath a (pySplit (str ".") kv.1) kv.2) acc
      = insertChains css acc := by
  intro css
  induction css with
  | nil => intro acc _; rfl
  | cons cv css ih =>
    intro acc hp
    obtain ⟨h0, hdot⟩ := hp cv (List.mem_cons_self _ _)
    have hsplit : pySplit (str ".") (joinChain cv.1) = cv.1 := by
      show splitOnSubAux '.' [] (joinChain cv.1) = cv.1
      exact splitDot_joinChain cv.1 h0 hdot
    rw [List.map_cons]
    show (insertPath acc (pySplit (str ".") (joinChain cv.1)) cv.2 >>= fun a =>
        (css.map (fun cv => (joinChain cv.1, cv.2))).foldlM
          (fun a (kv : Str × JVal) => insertPath a (pySplit (str ".") kv.1) kv.2) a)
        = _
    rw [hsplit, insertChains_cons]
    cases insertPath acc cv.1 cv.2 with
    | error e => rfl
    | ok a => exact ih a (fun cv' h => hp cv' (List.mem_cons_of_mem _ h))

/-- C4 counterexample: the mapping with the single dotted key `"a.b"` is a
tree-shaped nested mapping with no empty intermediate mappings, yet
`unflatten_dict (flatten_dict ...)` turns it into the nested mapping
`a ↦ (b ↦ "x")`, which differs from the input, refuting the unrestricted
round-trip claim. -/
theorem C4_counterexample :
    unflatten_dict (flatten_dict [(str "a.b", .jstr (str "x"))])
      = .ok [(str "a", .jobj [(str "b", .jstr (str "x"))])] ∧
    ([(str "a", .jobj [(str "b", .jstr (str "x"))])] : DictE)
      ≠ [(str "a.b", .jstr (str "x"))] := by
  exact ⟨by decide, by decide⟩

/-- C4 amended: for every tree-shaped nested mapping with no empty
intermediate mappings whose keys are, at every level, pairwise distinct,
non-empty and free of the separator `"."` (the `goodE` predicate),
`unflatten_dict (flatten_dict n) = n`; in particular
`flatten_dict {"authority": {"id": "x"}} = {"authority.id": "x"}` and
`unflatten_dict` reverses it exactly. -/
theorem C4_roundtrip :
    (∀ es : DictE, goodE es = true → unflatten_dict (flatten_dict es) = .ok es) ∧
    flatten_dict [(str "authority", .jobj [(str "id", .jstr (str "x"))])]
      = [(str "authority.id", .jstr (str "x"))] ∧
    unflatten_dict [(str "authority.id", .jstr (str "x"))]
      = .ok [(str "authority", .jobj [(str "id", .jstr (str "x"))])] := by
  refine ⟨?_, by decide, by decide⟩
  intro es hg
  have hpatheq : ((chainsE es).map
        (fun cv => (joinChain (extChain [] cv.1), cv.2))).map Prod.fst
      = (chainsE es).map (fun cv => joinChain cv.1) := by
    rw [List.map_map]; rfl
  have hflat : flatten_dict es
      = (chainsE es).map (fun cv => (joinChain (extChain [] cv.1), cv.2)) := by
    show flattenEntries es [] [] = _
    rw [flattenEntries_eq es [] [], pureE_eq es [] hg]
    refine setFold_append _ [] (fun k _ => rfl) ?_
    rw [hpatheq]
    exact paths_nodup es hg
  have hflat' : flatten_dict es
      = (chainsE es).map (fun cv => (joinChain cv.1, cv.2)) := by
    rw [hflat]; rfl
  rw [hflat']
  show ((chainsE es).map (fun cv => (joinChain cv.1, cv.2))).foldlM
      (fun a (kv : Str × JVal) => insertPath a (pySplit (str ".") kv.1) kv.2) []
    = .ok es
  rw [unflatten_mapped (chainsE es) []
    (fun cv hm => ⟨(chainsE_parts es hg cv hm).1,
      fun key hk => ((chainsE_parts es hg cv hm).2 key hk).2⟩)]
  rw [insertChains_chainsE es [] hg (fun k' _ => rfl)]
  rfl

/-- Witness for C4 at a concrete two-level good mapping. -/
theorem C4_roundtrip_witness :
    unflatten_dict (flatten_dict
        [(str "authority", .jobj [(str "id", .jstr (str "x")),
          (str "ip", .jstr (str "y"))]), (str "ue_id", .jint 1)])
      = .ok [(str "authority", .jobj [(str "id", .jstr (str "x")),
          (str "ip", .jstr (str "y"))]), (str "ue_id", .jint 1)] :=
  C4_roundtrip.1
    [(str "authority", .jobj [(str "id", .jstr (str "x")),
      (str "ip", .jstr (str "y"))]), (str "ue_id", .jint 1)] (by decide)

/-! ### Claim C3, general form: conflict behaviour of `unflatten_dict`
for an arbitrary pair of keys whose dotted paths conflict. -/

/-- The single-chain nested dict built by inserting one split path into an
empty dict: `chainDict [p1, ..., pn] v = {p1: {... {pn: v}}}`. -/
def chainDict : List Str → JVal → DictE
  | [], _ => []
  | [p], v => [(p, v)]
  | p :: rest, v => [(p, .jobj (chainDict rest v))]

theorem insertPath_nil_chain : ∀ (ps : List Str) (v : JVal), ps ≠ [] →
    insertPath [] ps v = .ok (chainDict ps v)
  | [], _, h => absurd rfl h
  | [p], v, _ => rfl
  | p :: q :: rest', v, _ => by
    rw [insertPath_create [] p (q :: rest') (by simp) v rfl,
      insertPath_nil_chain (q :: rest') v (by simp)]
    rfl

theorem insertPath_blocked (d : DictE) (p1 : Str) (ps : List Str) (hps : ps ≠ [])
    (v w : JVal) (hl : assocLookup d p1 = some w) (hw : ∀ es, w ≠ .jobj es) :
    insertPath d (p1 :: ps) v = .error .typeError := by
  obtain ⟨p2, ps', rfl⟩ := List.exists_cons_of_ne_nil hps
  rw [insertPath_cons_cons, hl]
  cases w with
  | jobj es => exact absurd rfl (hw es)
  | jstr s => rfl
  | jint n => rfl
  | jbool b => rfl
  | jnull => rfl
  | jfloatLit s => rfl
  | jbytes bs => rfl

theorem insertPath_chain_conflict : ∀ (ps qs : List Str) (v1 v2 : JVal),
    ps ≠ [] → qs ≠ [] → (∀ es, v1 ≠ .jobj es) →
    insertPath (chainDict ps v1) (ps ++ qs) v2 = .error .typeError
  | [], _, _, _, hps, _, _ => absurd rfl hps
  | [p], qs, v1, v2, _, hqs, hleaf => by
    show insertPath [(p, v1)] (p :: qs) v2 = .error .typeError
    exact insertPath_blocked [(p, v1)] p qs hqs v2 v1 (by simp [assocLookup]) hleaf
  | p :: q :: ps', qs, v1, v2, _, hqs, hleaf => by
    show insertPath [(p, .jobj (chainDict (q :: ps') v1))] (p :: ((q :: ps') ++ qs)) v2
        = .error .typeError
    rw [insertPath_descend [(p, .jobj (chainDict (q :: ps') v1))] p ((q :: ps') ++ qs)
        (by simp) v2 (chainDict (q :: ps') v1) (by simp [assocLookup]),
      insertPath_chain_conflict (q :: ps') qs v1 v2 (by simp) hqs hleaf]

theorem insertPath_chain_overwrite : ∀ (ps qs : List Str) (v1 v2 : JVal),
    ps ≠ [] → qs ≠ [] →
    insertPath (chainDict (ps ++ qs) v2) ps v1 = .ok (chainDict ps v1)
  | [], _, _, _, hps, _ => absurd rfl hps
  | [p], qs, v1, v2, _, hqs => by
    obtain ⟨q, qs', rfl⟩ := List.exists_cons_of_ne_nil hqs
    show Except.ok (setKey [(p, .jobj (chainDict (q :: qs') v2))] p v1)
        = .ok [(p, v1)]
    simp [setKey]
  | p :: q :: ps', qs, v1, v2, _, hqs => by
    show insertPath [(p, .jobj (chainDict ((q :: ps') ++ qs) v2))] (p :: q :: ps') v1
        = .ok [(p, .jobj (chainDict (q :: ps') v1))]
    rw [insertPath_descend _ p (q :: ps') (by simp) v1
        (chainDict ((q :: ps') ++ qs) v2) (by simp [assocLookup]),
      insertPath_chain_overwrite (q :: ps') qs v1 v2 (by simp) hqs]
    simp [setKey]

/-- C3 amended: for every pair of dotted keys whose paths conflict (the
second key's split path strictly extends the first key's), every leaf
value and every value for the longer key: the two-entry mapping listing
the leaf key first fails with an error (Python's `TypeError`, the
concrete form the `PathConflict` failure takes), while the mapping
listing the longer key first succeeds and silently replaces the nested
mapping built for the longer key with the leaf — so a prefix conflict is
detected in one processing order and silently overwritten in the other. -/
theorem C3_amended (key1 key2 : Str) (v1 v2 : JVal) (qs : List Str)
    (hsplit : pySplit (str ".") key2 = pySplit (str ".") key1 ++ qs)
    (hqs : qs ≠ [])
    (hleaf : ∀ es, v1 ≠ .jobj es) :
    unflatten_dict [(key1, v1), (key2, v2)] = .error .typeError ∧
    unflatten_dict [(key2, v2), (key1, v1)]
      = .ok (chainDict (pySplit (str ".") key1) v1) := by
  have hps : pySplit (str ".") key1 ≠ [] := by
    show splitOnSubAux '.' [] key1 ≠ []
    exact splitOnSubAux_ne_nil '.' [] key1
  constructor
  · show (insertPath [] (pySplit (str ".") key1) v1 >>= fun a1 =>
        insertPath a1 (pySplit (str ".") key2) v2 >>= fun a2 =>
        (pure a2 : Except PyErr DictE)) = .error .typeError
    rw [insertPath_nil_chain _ v1 hps, except_bind_ok, hsplit,
      insertPath_chain_conflict _ qs v1 v2 hps hqs hleaf, except_bind_error]
  · show (insertPath [] (pySplit (str ".") key2) v2 >>= fun a1 =>
        insertPath a1 (pySplit (str ".") key1) v1 >>= fun a2 =>
        (pure a2 : Except PyErr DictE))
      = .ok (chainDict (pySplit (str ".") key1) v1)
    have hpq : pySplit (str ".") key1 ++ qs ≠ [] := by
      intro h
      exact hps (List.append_eq_nil.mp h).1
    rw [hsplit, insertPath_nil_chain _ v2 hpq, except_bind_ok,
      insertPath_chain_overwrite _ qs v1 v2 hps hqs, except_bind_ok]
    rfl

/-- Witness for C3 at the concrete conflicting key pair. -/
theorem C3_amended_witness :
    unflatten_dict [(str "a", .jstr (str "x")), (str "a.b", .jstr (str "y"))]
      = .error .typeError ∧
    unflatten_dict [(str "a.b", .jstr (str "y")), (str "a", .jstr (str "x"))]
      = .ok (chainDict (pySplit (str ".") (str "a")) (.jstr (str "x"))) :=
  C3_amended (str "a") (str "a.b") (.jstr (str "x")) (.jstr (str "y")) [str "b"]
    (by decide) (by decide) (fun es h => JVal.noConfusion h)
